import Mathlib

/-!
# IkFastMoveitStateAdapter

A shallow embedding of `descartes_moveit/src/ikfast_moveit_state_adapter.cpp`.

Modelling conventions.

* A C++ `double` is an IEEE 754 binary64 value, `Double`: NaN, the two infinities,
  or a finite value given by its rational value (the sign of zero is not
  represented: no operation of this file distinguishes the two zeros).  Sums,
  differences and products are the exact result rounded to the nearest double,
  ties to even, with overflow to infinity; comparisons with NaN are false.  The
  literal `1e-6` is the double nearest to one millionth and
  `std::numeric_limits<double>::max()` is `2 ^ 1024 - 2 ^ 971`.
* `std::vector<T>` is `List T`; `push_back` appends at the end.
* `Eigen::Affine3d` is a type `P` with a multiplication (composition) and, where
  the code inverts a transform, an inverse; no algebraic law is assumed of them.
  The message conversions `tf::poseEigenToMsg` and `tf::poseMsgToEigen` are the
  identity.
* Reference (in/out) arguments are passed in and returned explicitly.
* The external collaborators (kinematics solver, robot state, validity check,
  parameter server) are fields or arguments; the solver methods are `const`
  member functions and so are functions of their arguments.
* A failed `assert` or an out-of-range subscript is the result `none`.
-/

namespace descartes_moveit

/-! ## Double-precision arithmetic -/

/-- An IEEE 754 binary64 value: NaN, an infinity with its sign, or a finite value.
The finite values that are doubles are the rationals `n * 2 ^ k` with
`|n| < 2 ^ 53` and `-1074 ≤ k ≤ 971`; the operations below round into that set. -/
inductive Double where
  | nan : Double
  | inf (negative : Bool) : Double
  | fin (value : ℚ) : Double
deriving DecidableEq

/-- Rounding of a rational to the nearest integer, ties to the even one. -/
def roundHalfEven (m : ℚ) : ℤ :=
  if m - ⌊m⌋ < 1 / 2 then ⌊m⌋
  else if 1 / 2 < m - ⌊m⌋ then ⌊m⌋ + 1
  else if ⌊m⌋ % 2 = 0 then ⌊m⌋ else ⌊m⌋ + 1

/-- The binary exponent of the spacing of the doubles around a positive rational:
53 significant bits, and the fixed spacing `2 ^ (-1074)` below `2 ^ (-1022)`. -/
def quantumExp (q : ℚ) : ℤ := max (Int.log 2 q) (-1022) - 52

/-- Rounding of a positive rational to the nearest double, ties to even; a result
of `2 ^ 1024` or more is an overflow to infinity. -/
def roundPos (q : ℚ) : Double :=
  if (2 : ℚ) ^ (1024 : ℕ) ≤ (roundHalfEven (q / 2 ^ quantumExp q) : ℚ) * 2 ^ quantumExp q then
    Double.inf false
  else Double.fin ((roundHalfEven (q / 2 ^ quantumExp q) : ℚ) * 2 ^ quantumExp q)

/-- Unary minus. -/
def Double.neg : Double → Double
  | .nan => .nan
  | .inf s => .inf (!s)
  | .fin q => .fin (-q)

/-- Rounding of a rational to the nearest double. -/
def roundQ (q : ℚ) : Double :=
  if q < 0 then (roundPos (-q)).neg else if q = 0 then .fin 0 else roundPos q

/-- The operator `+` on doubles. -/
def Double.add : Double → Double → Double
  | .nan, _ => .nan
  | _, .nan => .nan
  | .inf s, .inf t => if s = t then .inf s else .nan
  | .inf s, .fin _ => .inf s
  | .fin _, .inf t => .inf t
  | .fin p, .fin q => roundQ (p + q)

/-- The operator `-` on doubles. -/
def Double.sub (a b : Double) : Double := a.add b.neg

/-- The operator `*` on doubles. -/
def Double.mul : Double → Double → Double
  | .nan, _ => .nan
  | _, .nan => .nan
  | .inf s, .inf t => .inf (s != t)
  | .inf s, .fin q => if q = 0 then .nan else .inf (s != decide (q < 0))
  | .fin p, .inf t => if p = 0 then .nan else .inf (decide (p < 0) != t)
  | .fin p, .fin q => roundQ (p * q)

/-- The functions `std::fabs` and `std::abs` on doubles. -/
def Double.abs : Double → Double
  | .nan => .nan
  | .inf _ => .inf false
  | .fin q => .fin |q|

/-- The operator `<` on doubles. -/
def Double.lt : Double → Double → Bool
  | .nan, _ => false
  | _, .nan => false
  | .inf s, .inf t => s && !t
  | .inf s, .fin _ => s
  | .fin _, .inf t => !t
  | .fin p, .fin q => decide (p < q)

/-- Whether a double is finite (neither NaN nor an infinity). -/
def Double.isFinite : Double → Bool
  | .fin _ => true
  | _ => false

/-! ## The source file -/

/-- The type `std::vector<double>` of joint configurations. -/
abbrev JointPose := List Double

/-- The literal `1e-6`: the double nearest to one millionth. -/
def tol6 : Double := Double.fin (4722366482869645 / 2 ^ 72)

/-- The constant `std::numeric_limits<double>::max()`. -/
def DBL_MAX : Double := Double.fin (2 ^ 1024 - 2 ^ 971)

/-- The algorithm `std::equal(first1, last1, first2, pred)`: walks the first range
and compares with the element of the second range at the same offset.  The second
clause (second range exhausted) is a read past the end in C++; `isEqual` never
reaches it because it checks the sizes first. -/
def std_equal (pred : Double → Double → Bool) : List Double → List Double → Bool
  | [], _ => true
  | _ :: _, [] => false
  | a :: as, b :: bs => pred a b && std_equal pred as bs

/-- Source lines 27-31: the lambda is `std::fabs(v1i - v2i) < tol`. -/
def isEqual (v1 v2 : JointPose) (tol : Double) : Bool :=
  (v1.length == v2.length) &&
    std_equal (fun v1i v2i => Double.lt (Double.abs (Double.sub v1i v2i)) tol) v1 v2

/-- The range-for of `isInList` (source lines 37-39), falling through to
`return false`. -/
def isInListLoop (v : JointPose) (tol : Double) : List JointPose → Bool
  | [] => false
  | v2 :: rest => if isEqual v v2 tol then true else isInListLoop v tol rest

/-- Source lines 33-42. -/
def isInList (v : JointPose) (list : List JointPose) (tol : Double) : Bool :=
  if list.length > 0 then isInListLoop v tol list else false

/-- Source lines 46-52: the loop over `i < a.size()` with
`cost += std::abs(b[i] - a[i])`, starting from `0.0`.  The subscript `b[i]` falls
back to `0` out of range; under the length assertion of `closestJointPose` that
case does not occur. -/
def distance (a b : JointPose) : Double :=
  (List.range a.length).foldl
    (fun cost i =>
      Double.add cost (Double.abs (Double.sub (b.getD i (Double.fin 0)) (a.getD i (Double.fin 0)))))
    (Double.fin 0)

/-- The loop of `closestJointPose` (source lines 59-68) from index `i` on, with
the loop state `(closest, lowest_cost)`; `none` is a failed assertion. -/
def closestJointPoseLoop (target : JointPose) :
    List JointPose → Nat → Nat × Double → Option (Nat × Double)
  | [], _, st => some st
  | cand :: rest, i, (closest, lowest_cost) =>
    if target.length != cand.length then none
    else
      let c := distance target cand
      if Double.lt c lowest_cost then closestJointPoseLoop target rest (i + 1) (i, c)
      else closestJointPoseLoop target rest (i + 1) (closest, lowest_cost)

/-- Source lines 55-70. -/
def closestJointPose (target : JointPose) (candidates : List JointPose) : Option Nat :=
  (closestJointPoseLoop target candidates 0 (0, DBL_MAX)).map Prod.fst

/-- The struct `descartes_core::Frame`: a transform and its cached inverse. -/
structure Frame (P : Type) where
  frame : P
  frame_inv : P

/-- Modelled from the spec: the constructor `descartes_core::Frame(a)`, declared
outside this source file; the spec says the inverse is derived from the transform,
so it stores `a` and `a.inverse()`. -/
def Frame.ofTransform {P : Type} [Inv P] (a : P) : Frame P :=
  { frame := a, frame_inv := a⁻¹ }

/-- The kinematics solver plugin (`kinematics::KinematicsBase`) as seen by the
adapter: each method returns its success flag and its output argument. -/
structure KinematicsSolver (P : Type) where
  getPositionIK : List P → JointPose → Bool × List JointPose
  getPositionFK : List String → JointPose → Bool × List P
  getTipFrame : String

/-- The part of `moveit::core::RobotState` the adapter uses. -/
structure RobotState (P : Type) where
  knowsFrameTransform : String → Bool
  getFrameTransform : String → P

/-- The adapter object: the members inherited from `MoveitStateAdapter` that this
file reads, and the two cached transforms. -/
structure IkFastMoveitStateAdapter (P : Type) where
  solver : KinematicsSolver P
  isValid : JointPose → Bool
  getDOF : Nat
  seed_states_ : List JointPose
  robot_state_ : RobotState P
  world_to_root_ : Frame P
  tool_frame_ : String
  group_name_ : String
  tool0_to_tip_ : Frame P
  world_to_base_ : Frame P

/-- One invocation of `getPositionIK`: the poses and the seed passed. -/
abbrev IKCall (P : Type) := List P × JointPose

/-- What `getAllIK` leaves behind: its return value, the output argument and the
sequence of solver invocations it made. -/
structure AllIKResult (P : Type) where
  ret : Bool
  joint_poses : List JointPose
  calls : List (IKCall P)

/-- The method `std::vector::clear`. -/
def clear {α : Type} (_v : List α) : List α := []

/-- The inner loop of `getAllIK` (source lines 113-119) over the solver's
`joint_results`, updating `joint_poses`. -/
def solLoop (isValid : JointPose → Bool) : List JointPose → List JointPose → List JointPose
  | [], joint_poses => joint_poses
  | sol :: rest, joint_poses =>
    if isValid sol && !isInList sol joint_poses tol6 then
      solLoop isValid rest (joint_poses ++ [sol])
    else solLoop isValid rest joint_poses

/-- The outer loop of `getAllIK` (source lines 106-121) over the seeds, with the
state `(joint_poses, calls)`. -/
def seedLoop {P : Type} (solver : KinematicsSolver P) (isValid : JointPose → Bool)
    (poses : List P) :
    List JointPose → List JointPose × List (IKCall P) → List JointPose × List (IKCall P)
  | [], st => st
  | seed_state :: rest, (joint_poses, calls) =>
    let r := solver.getPositionIK poses seed_state
    if r.1 then
      seedLoop solver isValid poses rest (solLoop isValid r.2 joint_poses, calls ++ [(poses, seed_state)])
    else
      seedLoop solver isValid poses rest (joint_poses, calls ++ [(poses, seed_state)])

/-- The seed list `getAllIK` iterates over (source lines 99-104): the configured
seeds, or one all-zero seed of length `getDOF()` when none is configured. -/
def seedStatesUsed {P : Type} (a : IkFastMoveitStateAdapter P) : List JointPose :=
  if a.seed_states_.isEmpty then a.seed_states_ ++ [List.replicate a.getDOF (Double.fin 0)]
  else a.seed_states_

/-- The pose handed to the solver (source line 92). -/
def toolPose {P : Type} [Mul P] (a : IkFastMoveitStateAdapter P) (pose : P) : P :=
  a.world_to_base_.frame_inv * pose * a.tool0_to_tip_.frame

/-- Source lines 85-124.  `joint_poses` is the previous content of the output
argument. -/
def getAllIK {P : Type} [Mul P] (a : IkFastMoveitStateAdapter P) (pose : P)
    (joint_poses : List JointPose) : AllIKResult P :=
  let joint_poses := clear joint_poses
  let tool_pose := toolPose a pose
  let poses := [tool_pose]
  let seed_states := seedStatesUsed a
  let st := seedLoop a.solver a.isValid poses seed_states (joint_poses, [])
  { ret := decide (st.1.length > 0), joint_poses := st.1, calls := st.2 }

/-- Source lines 126-137.  `joint_pose` is the previous content of the output
argument; `none` is a failed assertion in `closestJointPose` or a subscript out
of range. -/
def getIK {P : Type} [Mul P] (a : IkFastMoveitStateAdapter P) (pose : P)
    (seed_state : JointPose) (joint_pose : JointPose) : Option (Bool × JointPose) :=
  let r := getAllIK a pose []
  if !r.ret then some (false, joint_pose)
  else
    match closestJointPose seed_state r.joint_poses with
    | none => none
    | some i =>
      match r.joint_poses.get? i with
      | none => none
      | some jp => some (true, jp)

/-- One invocation of `getPositionFK`: the link names and the joint values. -/
abbrev FKCall := List String × JointPose

/-- What `getFK` leaves behind: its return value, the output pose and the sequence
of forward-kinematics invocations it made. -/
structure FKResult (P : Type) where
  ret : Bool
  pose : P
  fkCalls : List FKCall

/-- Source lines 139-156.  `pose` is the previous content of the output argument;
`none` is the subscript `output[0]` on an empty vector. -/
def getFK {P : Type} [Mul P] (a : IkFastMoveitStateAdapter P) (joint_pose : JointPose)
    (pose : P) : Option (FKResult P) :=
  let tip_frame := [a.solver.getTipFrame]
  if !a.isValid joint_pose then some { ret := false, pose := pose, fkCalls := [] }
  else
    let r := a.solver.getPositionFK tip_frame joint_pose
    if !r.1 then some { ret := false, pose := pose, fkCalls := [(tip_frame, joint_pose)] }
    else
      match r.2.head? with
      | none => none
      | some out0 =>
        some { ret := true
               pose := a.world_to_base_.frame * out0 * a.tool0_to_tip_.frame_inv
               fkCalls := [(tip_frame, joint_pose)] }

/-- The string constant `default_base_frame`. -/
def default_base_frame : String := "base_link"

/-- The string constant `default_tool_frame`. -/
def default_tool_frame : String := "tool0"

/-- The call `ros::NodeHandle::param(name, out, default)` against a parameter
server `params`: whether the parameter exists, and the value stored in `out`. -/
def nh_param (params : String → Option String) (name : String) (dflt : String) :
    Bool × String :=
  match params name with
  | some v => (true, v)
  | none => (false, dflt)

/-- The solver-native base frame name looked up at source line 169. -/
def ikfastBaseFrame {P : Type} (a : IkFastMoveitStateAdapter P)
    (params : String → Option String) : String :=
  (nh_param params (a.group_name_ ++ "/ikfast_base_frame") default_base_frame).2

/-- The solver-native tool frame name looked up at source line 173. -/
def ikfastToolFrame {P : Type} (a : IkFastMoveitStateAdapter P)
    (params : String → Option String) : String :=
  (nh_param params (a.group_name_ ++ "/ikfast_tool_frame") default_tool_frame).2

/-- Source lines 164-201: the return value and the adapter after the call. -/
def computeIKFastTransforms {P : Type} [Mul P] [Inv P] (a : IkFastMoveitStateAdapter P)
    (params : String → Option String) : Bool × IkFastMoveitStateAdapter P :=
  let ikfast_base_frame := ikfastBaseFrame a params
  let ikfast_tool_frame := ikfastToolFrame a params
  if !a.robot_state_.knowsFrameTransform ikfast_base_frame then (false, a)
  else if !a.robot_state_.knowsFrameTransform ikfast_tool_frame then (false, a)
  else
    let a1 := { a with
      tool0_to_tip_ := Frame.ofTransform
        ((a.robot_state_.getFrameTransform a.tool_frame_)⁻¹ *
          a.robot_state_.getFrameTransform ikfast_tool_frame) }
    let a2 := { a1 with
      world_to_base_ := Frame.ofTransform
        (a1.world_to_root_.frame * a1.robot_state_.getFrameTransform ikfast_base_frame) }
    (true, a2)

/-- Source lines 72-83, the method named initialize in the source (a reserved
word here).  `baseInit` is the base-class method of the same name,
defined outside this source file: its return value and the adapter it leaves. -/
def initializeAdapter {P : Type} [Mul P] [Inv P]
    (baseInit : IkFastMoveitStateAdapter P → String → String → String → String →
      Bool × IkFastMoveitStateAdapter P)
    (a : IkFastMoveitStateAdapter P) (params : String → Option String)
    (robot_description group_name world_frame tcp_frame : String) :
    Bool × IkFastMoveitStateAdapter P :=
  let b := baseInit a robot_description group_name world_frame tcp_frame
  if !b.1 then (false, b.2)
  else computeIKFastTransforms b.2 params

/-- Modelled from the spec: the base-class method `MoveitStateAdapter::setState`,
defined outside this source file; per the spec the adapter's kinematic state
becomes the given state, and nothing else of the adapter changes. -/
def MoveitStateAdapter_setState {P : Type} (a : IkFastMoveitStateAdapter P)
    (state : RobotState P) : IkFastMoveitStateAdapter P :=
  { a with robot_state_ := state }

/-- Source lines 158-162: the adapter after the call; the return value of
`computeIKFastTransforms` is discarded. -/
def setState {P : Type} [Mul P] [Inv P] (a : IkFastMoveitStateAdapter P)
    (params : String → Option String) (state : RobotState P) : IkFastMoveitStateAdapter P :=
  (computeIKFastTransforms (MoveitStateAdapter_setState a state) params).2

/-! ## Subscript-checked variants

The same loops with every element read checked against the bounds of the vector
read: `none` is a read out of range. -/

/-- The algorithm `std::equal` as in `std_equal`, with the reads of the second
range checked. -/
def std_equal_checked (pred : Double → Double → Bool) :
    List Double → List Double → Option Bool
  | [], _ => some true
  | _ :: _, [] => none
  | a :: as, b :: bs => if pred a b then std_equal_checked pred as bs else some false

/-- Source lines 27-31 with the reads of `v2` checked; the size test short-circuits
the call of `std::equal`. -/
def isEqualChecked (v1 v2 : JointPose) (tol : Double) : Option Bool :=
  if v1.length == v2.length then
    std_equal_checked (fun v1i v2i => Double.lt (Double.abs (Double.sub v1i v2i)) tol) v1 v2
  else some false

/-- Source lines 46-52 with the subscripts `b[i]` and `a[i]` checked. -/
def distanceChecked (a b : JointPose) : Option Double :=
  (List.range a.length).foldl
    (fun cost i =>
      match cost, b.get? i, a.get? i with
      | some c, some bi, some ai => some (Double.add c (Double.abs (Double.sub bi ai)))
      | _, _, _ => none)
    (some (Double.fin 0))

/-! ## Specification-side notions -/

/-- The candidates the solver offers for a list of seeds: the concatenation, in
seed order and then in solver order, of the `joint_results` of the calls of
`getPositionIK` that report success. -/
def solverCandidates {P : Type} (solver : KinematicsSolver P) (poses : List P)
    (seeds : List JointPose) : List JointPose :=
  seeds.flatMap (fun seed =>
    if (solver.getPositionIK poses seed).1 then (solver.getPositionIK poses seed).2 else [])

/-! ## Concrete adapters

Poses of the first family are rationals under multiplication (one-dimensional
scalings composed exactly).  The solver accepts seeds of length one and answers
with the seed, the seed shifted by one, the seed again and the configuration 7;
the joint limit is `x < 5`. -/

/-- A solver over scalings. -/
def exSolver : KinematicsSolver ℚ where
  getPositionIK := fun _poses seed =>
    (seed.length == 1,
      [seed, seed.map (fun x => Double.add x (Double.fin 1)), seed, [Double.fin 7]])
  getPositionFK := fun _links q => (q.length == 1, [10])
  getTipFrame := "tool0"

/-- A robot state that knows the two default solver frames and the frame tcp. -/
def exRobotState : RobotState ℚ where
  knowsFrameTransform := fun f => f == "base_link" || f == "tool0" || f == "tcp"
  getFrameTransform := fun f => if f == "tool0" then 2 else if f == "tcp" then 4 else 3

/-- An adapter with the single configured seed 0. -/
def exAdapter : IkFastMoveitStateAdapter ℚ where
  solver := exSolver
  isValid := fun q => q.all (fun x => Double.lt x (Double.fin 5))
  getDOF := 1
  seed_states_ := [[Double.fin 0]]
  robot_state_ := exRobotState
  world_to_root_ := { frame := 1, frame_inv := 1 }
  tool_frame_ := "tcp"
  group_name_ := "manipulator"
  tool0_to_tip_ := { frame := 2, frame_inv := 1 / 2 }
  world_to_base_ := { frame := 3, frame_inv := 1 / 3 }

/-- The concrete adapter before any frame is known: the robot state knows no frame
and the cached transforms hold the identity. -/
def exFreshAdapter : IkFastMoveitStateAdapter ℚ :=
  { exAdapter with
    robot_state_ := { knowsFrameTransform := fun _ => false, getFrameTransform := fun _ => 1 }
    tool0_to_tip_ := { frame := 1, frame_inv := 1 }
    world_to_base_ := { frame := 1, frame_inv := 1 } }

/-- The concrete adapter with two configured seeds, the first of which the solver
rejects (it has two joints). -/
def exSkipAdapter : IkFastMoveitStateAdapter ℚ :=
  { exAdapter with seed_states_ := [[Double.fin 0, Double.fin 0], [Double.fin 0]] }

/-- The double nearest to 1e-9. -/
def dbl_1e_9 : Double := Double.fin (4835703278458517 / 2 ^ 82)

/-- The double nearest to 6e-7. -/
def dbl_6e_7 : Double := Double.fin (2833419889721787 / 2 ^ 72)

/-- The double nearest to 1.2e-6, twice the double nearest to 6e-7. -/
def dbl_12e_7 : Double := Double.fin (2833419889721787 / 2 ^ 71)

/-- A solver that answers every seed with the seed itself. -/
def exEchoSolver : KinematicsSolver ℚ where
  getPositionIK := fun _poses seed => (true, [seed])
  getPositionFK := fun _links q => (q.length == 1, [10])
  getTipFrame := "tool0"

/-- The concrete adapter over the echo solver with the three seeds 0, 6e-7 and
1.2e-6. -/
def exEchoAdapter : IkFastMoveitStateAdapter ℚ :=
  { exAdapter with
    solver := exEchoSolver
    seed_states_ := [[Double.fin 0], [dbl_6e_7], [dbl_12e_7]] }

/-- A solver whose single candidate has a NaN joint value. -/
def exNaNSolver : KinematicsSolver ℚ where
  getPositionIK := fun _poses _seed => (true, [[Double.nan]])
  getPositionFK := fun _links q => (q.length == 1, [10])
  getTipFrame := "tool0"

/-- The concrete adapter over the NaN solver.  Its validity check is a joint-limit
test of the usual form: a value is rejected when it is below the minimum or above
the maximum, so a NaN value, for which both comparisons are false, passes. -/
def exNaNAdapter : IkFastMoveitStateAdapter ℚ :=
  { exAdapter with
    solver := exNaNSolver
    isValid := fun q =>
      q.all (fun x => !(Double.lt x (Double.fin (-5)) || Double.lt (Double.fin 5) x)) }

/-- Composition of uniform scalings whose factors are doubles: the factors are
multiplied in double arithmetic. -/
instance : Mul Double := ⟨Double.mul⟩

/-- The double nearest to 10.1. -/
def dbl_10_1 : Double := Double.fin (5685794529555251 / 2 ^ 49)

/-- The double nearest to one third. -/
def dbl_third : Double := Double.fin (6004799503160661 / 2 ^ 54)

/-- A solver over double scalings whose forward kinematics answers 10.1. -/
def exRoundSolver : KinematicsSolver Double where
  getPositionIK := fun _poses seed => (true, [seed])
  getPositionFK := fun _links q => (q.length == 1, [dbl_10_1])
  getTipFrame := "tool0"

/-- An adapter over double scalings with the cached transforms 3 and 2 and, as
cached inverses, the doubles nearest to 1/3 and 1/2. -/
def exRoundAdapter : IkFastMoveitStateAdapter Double where
  solver := exRoundSolver
  isValid := fun q => q.all (fun x => Double.lt x (Double.fin 5))
  getDOF := 1
  seed_states_ := [[Double.fin 0]]
  robot_state_ := { knowsFrameTransform := fun _ => true, getFrameTransform := fun _ => Double.fin 1 }
  world_to_root_ := { frame := Double.fin 1, frame_inv := Double.fin 1 }
  tool_frame_ := "tcp"
  group_name_ := "manipulator"
  tool0_to_tip_ := { frame := Double.fin 2, frame_inv := Double.fin (1 / 2) }
  world_to_base_ := { frame := Double.fin 3, frame_inv := dbl_third }


/-! ## Laws of the double operations -/

theorem dneg_neg (a : Double) : a.neg.neg = a := by
  cases a with
  | nan => rfl
  | inf s => simp [Double.neg]
  | fin q => simp [Double.neg]

theorem roundQ_neg (q : ℚ) : roundQ (-q) = (roundQ q).neg := by
  rcases lt_trichotomy q 0 with h | h | h
  · have h1 : ¬ (-q < 0) := by linarith
    have h2 : ¬ (-q = 0) := by
      intro h0
      linarith
    simp only [roundQ, h, h1, h2, if_true, if_false, dneg_neg]
  · subst h
    simp [roundQ, Double.neg]
  · have h1 : -q < 0 := by linarith
    have h2 : ¬ (q < 0) := by linarith
    have h3 : ¬ (q = 0) := by
      intro h0
      linarith
    simp only [roundQ, h1, h2, h3, if_true, if_false, neg_neg]

theorem dabs_neg (a : Double) : a.neg.abs = a.abs := by
  cases a with
  | nan => rfl
  | inf s => rfl
  | fin q => simp [Double.neg, Double.abs]

theorem dadd_comm (a b : Double) : a.add b = b.add a := by
  cases a with
  | nan => cases b <;> rfl
  | inf s =>
    cases b with
    | nan => rfl
    | inf t =>
      cases s <;> cases t <;> rfl
    | fin q => rfl
  | fin p =>
    cases b with
    | nan => rfl
    | inf t => rfl
    | fin q => simp [Double.add, add_comm]

theorem dneg_add (a b : Double) : (a.add b).neg = a.neg.add b.neg := by
  cases a with
  | nan => cases b <;> rfl
  | inf s =>
    cases b with
    | nan => rfl
    | inf t => cases s <;> cases t <;> rfl
    | fin q => rfl
  | fin p =>
    cases b with
    | nan => rfl
    | inf t => rfl
    | fin q =>
      show (roundQ (p + q)).neg = roundQ (-p + -q)
      rw [← roundQ_neg]
      congr 1
      ring

theorem dsub_swap (a b : Double) : b.sub a = (a.sub b).neg := by
  unfold Double.sub
  rw [dneg_add, dneg_neg, dadd_comm]

theorem dabs_sub_comm (a b : Double) : (a.sub b).abs = (b.sub a).abs := by
  rw [dsub_swap a b, dabs_neg]

theorem dsub_self_fin (q : ℚ) : (Double.fin q).sub (Double.fin q) = Double.fin 0 := by
  simp [Double.sub, Double.neg, Double.add, roundQ]

theorem dlt_irrefl (a : Double) : a.lt a = false := by
  cases a with
  | nan => rfl
  | inf s => cases s <;> rfl
  | fin q => simp [Double.lt]

theorem dlt_trans (a b c : Double) (hab : a.lt b = true) (hbc : b.lt c = true) :
    a.lt c = true := by
  cases a with
  | nan => simp [Double.lt] at hab
  | inf s =>
    cases b with
    | nan => simp [Double.lt] at hab
    | inf t =>
      cases c with
      | nan => simp [Double.lt] at hbc
      | inf u =>
        cases s <;> cases t <;> cases u <;> simp [Double.lt] at hab hbc ⊢
      | fin r =>
        cases s <;> cases t <;> simp [Double.lt] at hab hbc ⊢
    | fin q =>
      cases c with
      | nan => simp [Double.lt] at hbc
      | inf u =>
        cases s <;> cases u <;> simp [Double.lt] at hab hbc ⊢
      | fin r =>
        cases s <;> simp [Double.lt] at hab hbc ⊢
  | fin p =>
    cases b with
    | nan => simp [Double.lt] at hab
    | inf t =>
      cases c with
      | nan => simp [Double.lt] at hbc
      | inf u => cases t <;> cases u <;> simp [Double.lt] at hab hbc ⊢
      | fin r => cases t <;> simp [Double.lt] at hab hbc ⊢
    | fin q =>
      cases c with
      | nan => simp [Double.lt] at hbc
      | inf u => cases u <;> simp [Double.lt] at hab hbc ⊢
      | fin r =>
        simp only [Double.lt, decide_eq_true_eq] at hab hbc ⊢
        exact lt_trans hab hbc

theorem dlt_false_of_le (x l lowest : Double) (hl : l = lowest ∨ l.lt lowest = true)
    (hx : x.lt lowest = false) : x.lt l = false := by
  rcases hl with rfl | hl
  · exact hx
  · cases h : x.lt l with
    | false => rfl
    | true =>
      rw [dlt_trans x l lowest h hl] at hx
      exact Bool.noConfusion hx

/-! ## Evaluating the rounding -/

theorem two_zpow_pos (e : ℤ) : (0 : ℚ) < 2 ^ e := zpow_pos (by norm_num) e

theorem two_zpow_le (a b : ℤ) (h : a ≤ b) : (2 : ℚ) ^ a ≤ 2 ^ b :=
  zpow_le_zpow_right₀ (by norm_num) h

theorem two_zpow_add (a b : ℤ) : (2 : ℚ) ^ (a + b) = 2 ^ a * 2 ^ b :=
  zpow_add₀ (by norm_num) a b

theorem two_zpow_1024 : (2 : ℚ) ^ (1024 : ℤ) = 2 ^ (1024 : ℕ) := zpow_natCast (2 : ℚ) 1024

theorem le_int_log (q : ℚ) (e : ℤ) (hq : 0 < q) (h : (2 : ℚ) ^ e ≤ q) : e ≤ Int.log 2 q := by
  apply (Int.zpow_le_iff_le_log (by norm_num) hq).mp
  simpa using h

theorem int_log_lt (q : ℚ) (e : ℤ) (hq : 0 < q) (h : q < (2 : ℚ) ^ e) : Int.log 2 q < e := by
  apply (Int.lt_zpow_iff_log_lt (by norm_num) hq).mp
  simpa using h

theorem zpow_int_log_le (q : ℚ) (hq : 0 < q) : (2 : ℚ) ^ Int.log 2 q ≤ q := by
  have h := Int.zpow_log_le_self (b := 2) (r := q) (by norm_num) hq
  simpa using h

theorem lt_zpow_int_log_succ (q : ℚ) : q < (2 : ℚ) ^ (Int.log 2 q + 1) := by
  have h := Int.lt_zpow_succ_log_self (b := 2) (by norm_num) q
  simpa using h

theorem int_log_eq (q : ℚ) (e : ℤ) (h1 : (2 : ℚ) ^ e ≤ q) (h2 : q < (2 : ℚ) ^ (e + 1)) :
    Int.log 2 q = e := by
  have hq : 0 < q := lt_of_lt_of_le (two_zpow_pos e) h1
  have ha := le_int_log q e hq h1
  have hb := int_log_lt q (e + 1) hq h2
  omega

theorem roundHalfEven_intCast (n : ℤ) : roundHalfEven (n : ℚ) = n := by
  simp [roundHalfEven]

theorem roundHalfEven_ge (m : ℚ) : ⌊m⌋ ≤ roundHalfEven m := by
  unfold roundHalfEven
  split
  · exact le_refl _
  · split
    · omega
    · split
      · exact le_refl _
      · omega

theorem roundHalfEven_le (m : ℚ) : roundHalfEven m ≤ ⌊m⌋ + 1 := by
  unfold roundHalfEven
  split
  · omega
  · split
    · exact le_refl _
    · split
      · omega
      · exact le_refl _

theorem roundHalfEven_of_floor (m : ℚ) (f : ℤ) (h1 : (f : ℚ) ≤ m) (h2 : m < f + 1) :
    roundHalfEven m =
      if m - f < 1 / 2 then f else if 1 / 2 < m - f then f + 1
      else if f % 2 = 0 then f else f + 1 := by
  have hf : ⌊m⌋ = f := Int.floor_eq_iff.mpr ⟨h1, h2⟩
  simp only [roundHalfEven, hf]

theorem quantumExp_of (q : ℚ) (e : ℤ) (h1 : (2 : ℚ) ^ e ≤ q) (h2 : q < (2 : ℚ) ^ (e + 1))
    (he : -1022 ≤ e) : quantumExp q = e - 52 := by
  unfold quantumExp
  rw [int_log_eq q e h1 h2, max_eq_left he]

/-- Rounding a positive rational in the binade of exponent `e`. -/
theorem roundPos_of (q : ℚ) (e n : ℤ) (h1 : (2 : ℚ) ^ e ≤ q) (h2 : q < (2 : ℚ) ^ (e + 1))
    (he : -1022 ≤ e) (hn : roundHalfEven (q / 2 ^ (e - 52)) = n) :
    roundPos q =
      if (2 : ℚ) ^ (1024 : ℕ) ≤ (n : ℚ) * 2 ^ (e - 52) then Double.inf false
      else Double.fin ((n : ℚ) * 2 ^ (e - 52)) := by
  unfold roundPos
  rw [quantumExp_of q e h1 h2 he, hn]

theorem quantumExp_le (q : ℚ) (n : ℕ) (k : ℤ) (hq : 0 < q) (hn : n < 2 ^ 53) (hk : -1074 ≤ k)
    (hqn : q = n * 2 ^ k) : quantumExp q ≤ k := by
  have hlt : q < (2 : ℚ) ^ (k + 53) := by
    rw [hqn, two_zpow_add, mul_comm]
    apply mul_lt_mul_of_pos_left _ (two_zpow_pos k)
    have h53 : ((2 : ℚ) ^ (53 : ℤ)) = ((2 ^ 53 : ℕ) : ℚ) := by norm_num
    rw [h53]
    exact_mod_cast hn
  have hlog := int_log_lt q (k + 53) hq hlt
  unfold quantumExp
  have hmax : max (Int.log 2 q) (-1022) ≤ k + 52 := max_le (by omega) (by omega)
  omega

/-- A positive rational that is a double rounds to itself. -/
theorem roundPos_exact (q : ℚ) (n : ℕ) (k : ℤ) (hq : 0 < q) (hn : n < 2 ^ 53) (hk : -1074 ≤ k)
    (hqn : q = n * 2 ^ k) (hmax : q < 2 ^ (1024 : ℕ)) : roundPos q = Double.fin q := by
  have hc := quantumExp_le q n k hq hn hk hqn
  obtain ⟨c, hcq⟩ : ∃ c, quantumExp q = c := ⟨_, rfl⟩
  rw [hcq] at hc
  obtain ⟨d, hd⟩ : ∃ d : ℕ, k = c + d := ⟨(k - c).toNat, by omega⟩
  have hpos := two_zpow_pos c
  have hm : q / 2 ^ c = ((n * 2 ^ d : ℤ) : ℚ) := by
    rw [hqn, hd, two_zpow_add, zpow_natCast]
    field_simp
    ring
  have hv : (roundHalfEven (q / 2 ^ c) : ℚ) * 2 ^ c = q := by
    rw [hm, roundHalfEven_intCast, ← hm]
    field_simp
  unfold roundPos
  rw [hcq, hv, if_neg (not_le.mpr hmax)]

/-- A rational that is a double rounds to itself. -/
theorem roundQ_exact (q : ℚ) (n : ℕ) (k : ℤ) (hn : n < 2 ^ 53) (hk : -1074 ≤ k) (hk2 : k ≤ 971)
    (hqn : |q| = n * 2 ^ k) : roundQ q = Double.fin q := by
  have hmax : |q| < 2 ^ (1024 : ℕ) := by
    rw [hqn]
    have h1 : (n : ℚ) * 2 ^ k < 2 ^ (53 : ℤ) * 2 ^ k := by
      apply mul_lt_mul_of_pos_right _ (two_zpow_pos k)
      have h53 : ((2 : ℚ) ^ (53 : ℤ)) = ((2 ^ 53 : ℕ) : ℚ) := by norm_num
      rw [h53]
      exact_mod_cast hn
    refine lt_of_lt_of_le h1 ?_
    rw [← two_zpow_add, ← two_zpow_1024]
    exact two_zpow_le _ _ (by omega)
  rcases lt_trichotomy q 0 with h | h | h
  · rw [abs_of_neg h] at hqn hmax
    simp only [roundQ, h, if_true]
    rw [roundPos_exact (-q) n k (by linarith) hn hk hqn hmax]
    simp [Double.neg]
  · subst h
    simp [roundQ]
  · rw [abs_of_pos h] at hqn hmax
    have h2 : ¬ q < 0 := by linarith
    have h3 : ¬ q = 0 := by
      intro h0
      linarith
    simp only [roundQ, h2, h3, if_false]
    exact roundPos_exact q n k h hn hk hqn hmax

theorem dadd_fin (p q : ℚ) (n : ℕ) (k : ℤ) (hn : n < 2 ^ 53) (hk : -1074 ≤ k) (hk2 : k ≤ 971)
    (hqn : |p + q| = n * 2 ^ k) :
    (Double.fin p).add (Double.fin q) = Double.fin (p + q) :=
  roundQ_exact (p + q) n k hn hk hk2 hqn

theorem dsub_fin (p q : ℚ) (n : ℕ) (k : ℤ) (hn : n < 2 ^ 53) (hk : -1074 ≤ k) (hk2 : k ≤ 971)
    (hqn : |p - q| = n * 2 ^ k) :
    (Double.fin p).sub (Double.fin q) = Double.fin (p - q) := by
  show roundQ (p + -q) = Double.fin (p - q)
  rw [← sub_eq_add_neg]
  exact roundQ_exact (p - q) n k hn hk hk2 hqn

theorem dmul_fin (p q : ℚ) (n : ℕ) (k : ℤ) (hn : n < 2 ^ 53) (hk : -1074 ≤ k) (hk2 : k ≤ 971)
    (hqn : |p * q| = n * 2 ^ k) :
    (Double.fin p).mul (Double.fin q) = Double.fin (p * q) :=
  roundQ_exact (p * q) n k hn hk hk2 hqn

/-- Rounding a rational of `2 ^ 1024` or more overflows. -/
theorem roundPos_overflow (q : ℚ) (h : (2 : ℚ) ^ (1024 : ℕ) ≤ q) :
    roundPos q = Double.inf false := by
  have hq : 0 < q := lt_of_lt_of_le (pow_pos (by norm_num) 1024) h
  have hlog : (1024 : ℤ) ≤ Int.log 2 q := le_int_log q 1024 hq (by rw [two_zpow_1024]; exact h)
  have hc : quantumExp q = Int.log 2 q - 52 := by
    unfold quantumExp
    rw [max_eq_left (by omega)]
  have hm : ((2 ^ 52 : ℤ) : ℚ) ≤ q / 2 ^ quantumExp q := by
    rw [le_div_iff₀ (two_zpow_pos _), hc]
    have h52 : (((2 : ℤ) ^ 52 : ℤ) : ℚ) = (2 : ℚ) ^ (52 : ℤ) := by norm_num
    rw [h52, ← two_zpow_add]
    have : (52 : ℤ) + (Int.log 2 q - 52) = Int.log 2 q := by ring
    rw [this]
    exact zpow_int_log_le q hq
  have hfloor : (2 ^ 52 : ℤ) ≤ ⌊q / 2 ^ quantumExp q⌋ := Int.le_floor.mpr hm
  have hr : (2 ^ 52 : ℤ) ≤ roundHalfEven (q / 2 ^ quantumExp q) :=
    le_trans hfloor (roundHalfEven_ge _)
  have hv : (2 : ℚ) ^ (1024 : ℕ) ≤
      (roundHalfEven (q / 2 ^ quantumExp q) : ℚ) * 2 ^ quantumExp q := by
    have h1 : ((2 ^ 52 : ℤ) : ℚ) * 2 ^ quantumExp q ≤
        (roundHalfEven (q / 2 ^ quantumExp q) : ℚ) * 2 ^ quantumExp q := by
      apply mul_le_mul_of_nonneg_right _ (le_of_lt (two_zpow_pos _))
      exact_mod_cast hr
    refine le_trans ?_ h1
    have h52 : (((2 : ℤ) ^ 52 : ℤ) : ℚ) = (2 : ℚ) ^ (52 : ℤ) := by norm_num
    rw [h52, ← two_zpow_add, hc]
    have : (52 : ℤ) + (Int.log 2 q - 52) = Int.log 2 q := by ring
    rw [this]
    rw [← two_zpow_1024]
    exact two_zpow_le _ _ hlog
  unfold roundPos
  rw [if_pos hv]

theorem roundQ_of_pos (q : ℚ) (e n : ℤ) (h1 : (2 : ℚ) ^ e ≤ q) (h2 : q < (2 : ℚ) ^ (e + 1))
    (he : -1022 ≤ e) (hn : roundHalfEven (q / 2 ^ (e - 52)) = n)
    (hv : (n : ℚ) * 2 ^ (e - 52) < 2 ^ (1024 : ℕ)) :
    roundQ q = Double.fin ((n : ℚ) * 2 ^ (e - 52)) := by
  have hq : 0 < q := lt_of_lt_of_le (two_zpow_pos e) h1
  have hq1 : ¬ q < 0 := by linarith
  have hq2 : ¬ q = 0 := by
    intro h0
    linarith
  simp only [roundQ, hq1, hq2, if_false]
  rw [roundPos_of q e n h1 h2 he hn, if_neg (not_le.mpr hv)]


/-! ## The range of rounded values -/

theorem roundPos_fin_le (q v : ℚ) (hq : 0 < q) (h : roundPos q = Double.fin v) :
    0 ≤ v ∧ v ≤ 2 ^ (1024 : ℕ) - 2 ^ (971 : ℕ) := by
  have hlog1 := zpow_int_log_le q hq
  have hlog2 := lt_zpow_int_log_succ q
  by_cases hover : (2 : ℚ) ^ (1024 : ℕ) ≤ q
  · rw [roundPos_overflow q hover] at h
    exact Double.noConfusion h
  have he : Int.log 2 q ≤ 1023 := by
    have := int_log_lt q 1024 hq (by rw [two_zpow_1024]; exact not_le.mp hover)
    omega
  obtain ⟨c, hc⟩ : ∃ c, quantumExp q = c := ⟨_, rfl⟩
  obtain ⟨n, hn⟩ : ∃ n, roundHalfEven (q / 2 ^ c) = n := ⟨_, rfl⟩
  have hcpos := two_zpow_pos c
  unfold roundPos at h
  rw [hc, hn] at h
  by_cases hbig : (2 : ℚ) ^ (1024 : ℕ) ≤ (n : ℚ) * 2 ^ c
  · rw [if_pos hbig] at h
    exact Double.noConfusion h
  rw [if_neg hbig, Double.fin.injEq] at h
  subst h
  have hmpos : 0 ≤ q / 2 ^ c := le_of_lt (div_pos hq hcpos)
  have hn0 : 0 ≤ n := by
    rw [← hn]
    exact le_trans (Int.floor_nonneg.mpr hmpos) (roundHalfEven_ge _)
  refine ⟨mul_nonneg (by exact_mod_cast hn0) (le_of_lt hcpos), ?_⟩
  have hcdef : c = max (Int.log 2 q) (-1022) - 52 := by
    rw [← hc]
    rfl
  by_cases h1023 : Int.log 2 q = 1023
  · have hc971 : c = 971 := by
      rw [hcdef, h1023]
      rfl
    rw [hc971] at hbig ⊢
    have h971 : (2 : ℚ) ^ (971 : ℤ) = 2 ^ (971 : ℕ) := zpow_natCast (2 : ℚ) 971
    rw [h971] at hbig ⊢
    have hlt : (n : ℚ) * 2 ^ (971 : ℕ) < 2 ^ (53 : ℕ) * 2 ^ (971 : ℕ) := by
      have : (2 : ℚ) ^ (53 : ℕ) * 2 ^ (971 : ℕ) = 2 ^ (1024 : ℕ) := by
        rw [← pow_add]
      rw [this]
      exact not_le.mp hbig
    have hn53 : (n : ℚ) < 2 ^ (53 : ℕ) := lt_of_mul_lt_mul_right hlt (by positivity)
    have hn53z : n < 2 ^ 53 := by exact_mod_cast hn53
    have hn53le : (n : ℚ) ≤ 2 ^ (53 : ℕ) - 1 := by
      have : n ≤ 2 ^ 53 - 1 := by omega
      exact_mod_cast this
    have h1024 : (2 : ℚ) ^ (1024 : ℕ) = 2 ^ (53 : ℕ) * 2 ^ (971 : ℕ) := by
      rw [← pow_add]
    rw [h1024]
    have h971pos : (0 : ℚ) < 2 ^ (971 : ℕ) := by positivity
    nlinarith
  · have he2 : Int.log 2 q ≤ 1022 := by omega
    obtain ⟨E, hE⟩ : ∃ E, max (Int.log 2 q) (-1022) = E := ⟨_, rfl⟩
    have hE1 : Int.log 2 q ≤ E := by rw [← hE]; exact le_max_left _ _
    have hE2 : E ≤ 1022 := by rw [← hE]; exact max_le he2 (by norm_num)
    have hcE : c = E - 52 := by rw [hcdef, hE]
    have hqlt : q < (2 : ℚ) ^ (E + 1) :=
      lt_of_lt_of_le hlog2 (two_zpow_le _ _ (by omega))
    have hmlt : q / 2 ^ c < ((2 ^ 53 : ℤ) : ℚ) := by
      rw [div_lt_iff₀ hcpos]
      have h53 : (((2 : ℤ) ^ 53 : ℤ) : ℚ) = (2 : ℚ) ^ (53 : ℤ) := by norm_num
      rw [h53, ← two_zpow_add, hcE]
      have : (53 : ℤ) + (E - 52) = E + 1 := by ring
      rw [this]
      exact hqlt
    have hfl : ⌊q / 2 ^ c⌋ < 2 ^ 53 := Int.floor_lt.mpr hmlt
    have hnle : n ≤ 2 ^ 53 := by
      rw [← hn]
      have := roundHalfEven_le (q / 2 ^ c)
      omega
    have hv : (n : ℚ) * 2 ^ c ≤ (2 : ℚ) ^ (E + 1) := by
      have h1 : (n : ℚ) * 2 ^ c ≤ ((2 ^ 53 : ℤ) : ℚ) * 2 ^ c := by
        apply mul_le_mul_of_nonneg_right _ (le_of_lt hcpos)
        exact_mod_cast hnle
      refine le_trans h1 ?_
      have h53 : (((2 : ℤ) ^ 53 : ℤ) : ℚ) = (2 : ℚ) ^ (53 : ℤ) := by norm_num
      rw [h53, ← two_zpow_add, hcE]
      have : (53 : ℤ) + (E - 52) = E + 1 := by ring
      rw [this]
    have hv2 : (2 : ℚ) ^ (E + 1) ≤ 2 ^ (1023 : ℤ) := two_zpow_le _ _ (by omega)
    have h1023z : (2 : ℚ) ^ (1023 : ℤ) = 2 ^ (1023 : ℕ) := zpow_natCast (2 : ℚ) 1023
    rw [h1023z] at hv2
    have hfinal : (2 : ℚ) ^ (1023 : ℕ) ≤ 2 ^ (1024 : ℕ) - 2 ^ (971 : ℕ) := by
      have ha : (2 : ℚ) ^ (1024 : ℕ) = 2 * 2 ^ (1023 : ℕ) := by
        rw [show (1024 : ℕ) = 1023 + 1 from rfl, pow_succ]
        ring
      have hb : (2 : ℚ) ^ (971 : ℕ) ≤ 2 ^ (1023 : ℕ) :=
        pow_le_pow_right₀ (by norm_num) (by norm_num)
      rw [ha]
      linarith
    exact le_trans hv (le_trans hv2 hfinal)

theorem roundQ_fin_le (q v : ℚ) (h : roundQ q = Double.fin v) :
    |v| ≤ 2 ^ (1024 : ℕ) - 2 ^ (971 : ℕ) := by
  have hM : (0 : ℚ) ≤ 2 ^ (1024 : ℕ) - 2 ^ (971 : ℕ) := by
    have : (2 : ℚ) ^ (971 : ℕ) ≤ 2 ^ (1024 : ℕ) := pow_le_pow_right₀ (by norm_num) (by norm_num)
    linarith
  rcases lt_trichotomy q 0 with hq | hq | hq
  · simp only [roundQ, hq, if_true] at h
    cases hr : roundPos (-q) with
    | nan => rw [hr] at h; exact Double.noConfusion h
    | inf s => rw [hr] at h; exact Double.noConfusion h
    | fin w =>
      rw [hr] at h
      simp only [Double.neg, Double.fin.injEq] at h
      obtain ⟨h0, h1⟩ := roundPos_fin_le (-q) w (by linarith) hr
      rw [← h, abs_neg, abs_of_nonneg h0]
      exact h1
  · subst hq
    simp only [roundQ, lt_self_iff_false, if_false, if_true, Double.fin.injEq] at h
    rw [← h, abs_zero]
    exact hM
  · have h2 : ¬ q < 0 := by linarith
    have h3 : ¬ q = 0 := by
      intro h0
      linarith
    simp only [roundQ, h2, h3, if_false] at h
    obtain ⟨h0, h1⟩ := roundPos_fin_le q v hq h
    rw [abs_of_nonneg h0]
    exact h1

/-! ## The literals -/

/-- The double `tol6` is the literal 1e-6: one millionth rounded to the nearest
double. -/
theorem tol6_eq_round : roundQ (1 / 1000000) = tol6 := by
  have h := roundQ_of_pos (1 / 1000000) (-20) 4722366482869645
    (by norm_num) (by norm_num) (by norm_num)
    (by
      rw [roundHalfEven_of_floor _ 4722366482869645 (by norm_num) (by norm_num)]
      norm_num)
    (by norm_num)
  rw [h]
  unfold tol6
  norm_num

theorem dbl_1e_9_eq_round : roundQ (1 / 1000000000) = dbl_1e_9 := by
  have h := roundQ_of_pos (1 / 1000000000) (-30) 4835703278458517
    (by norm_num) (by norm_num) (by norm_num)
    (by
      rw [roundHalfEven_of_floor _ 4835703278458516 (by norm_num) (by norm_num)]
      norm_num)
    (by norm_num)
  rw [h]
  unfold dbl_1e_9
  norm_num

theorem dbl_6e_7_eq_round : roundQ (6 / 10000000) = dbl_6e_7 := by
  have h := roundQ_of_pos (6 / 10000000) (-21) 5666839779443574
    (by norm_num) (by norm_num) (by norm_num)
    (by
      rw [roundHalfEven_of_floor _ 5666839779443574 (by norm_num) (by norm_num)]
      norm_num)
    (by norm_num)
  rw [h]
  unfold dbl_6e_7
  norm_num

theorem dbl_12e_7_eq_round : roundQ (12 / 10000000) = dbl_12e_7 := by
  have h := roundQ_of_pos (12 / 10000000) (-20) 5666839779443574
    (by norm_num) (by norm_num) (by norm_num)
    (by
      rw [roundHalfEven_of_floor _ 5666839779443574 (by norm_num) (by norm_num)]
      norm_num)
    (by norm_num)
  rw [h]
  unfold dbl_12e_7
  norm_num

theorem dbl_10_1_eq_round : roundQ (101 / 10) = dbl_10_1 := by
  have h := roundQ_of_pos (101 / 10) 3 5685794529555251
    (by norm_num) (by norm_num) (by norm_num)
    (by
      rw [roundHalfEven_of_floor _ 5685794529555251 (by norm_num) (by norm_num)]
      norm_num)
    (by norm_num)
  rw [h]
  unfold dbl_10_1
  norm_num

theorem dbl_third_eq_round : roundQ (1 / 3) = dbl_third := by
  have h := roundQ_of_pos (1 / 3) (-2) 6004799503160661
    (by norm_num) (by norm_num) (by norm_num)
    (by
      rw [roundHalfEven_of_floor _ 6004799503160661 (by norm_num) (by norm_num)]
      norm_num)
    (by norm_num)
  rw [h]
  unfold dbl_third
  norm_num

/-! ## Tolerance equality -/

theorem std_equal_iff (pred : Double → Double → Bool) (v1 v2 : List Double) :
    (v1.length = v2.length ∧ std_equal pred v1 v2 = true) ↔
      List.Forall₂ (fun a b => pred a b = true) v1 v2 := by
  induction v1 generalizing v2 with
  | nil =>
    cases v2 with
    | nil => simp [std_equal]
    | cons b bs => simp
  | cons a as ih =>
    cases v2 with
    | nil => simp
    | cons b bs =>
      simp only [std_equal, List.length_cons, Nat.add_right_cancel_iff, Bool.and_eq_true,
        List.forall₂_cons]
      rw [← ih bs]
      tauto

theorem isEqual_iff (v1 v2 : JointPose) (tol : Double) :
    isEqual v1 v2 tol = true ↔
      List.Forall₂ (fun a b => Double.lt (Double.abs (Double.sub a b)) tol = true) v1 v2 := by
  unfold isEqual
  rw [Bool.and_eq_true, beq_iff_eq, std_equal_iff]

theorem isEqual_comm (v1 v2 : JointPose) (tol : Double) :
    isEqual v1 v2 tol = isEqual v2 v1 tol := by
  rw [Bool.eq_iff_iff, isEqual_iff, isEqual_iff]
  constructor
  · intro h
    apply List.Forall₂.flip
    exact h.imp (fun a b hab => by simpa [flip, dabs_sub_comm b a] using hab)
  · intro h
    apply List.Forall₂.flip
    exact h.imp (fun a b hab => by simpa [flip, dabs_sub_comm b a] using hab)

theorem isEqual_refl (v : JointPose) (tol : Double)
    (htol : Double.lt (Double.fin 0) tol = true) (hfin : ∀ x ∈ v, x.isFinite = true) :
    isEqual v v tol = true := by
  rw [isEqual_iff, List.forall₂_same]
  intro x hx
  cases x with
  | nan => exact absurd (hfin _ hx) (by simp [Double.isFinite])
  | inf s => exact absurd (hfin _ hx) (by simp [Double.isFinite])
  | fin q =>
    rw [dsub_self_fin]
    simpa [Double.abs] using htol

theorem dlt_abs_sub_not_finite (x b tol : Double) (h : x.isFinite = false) :
    Double.lt (Double.abs (Double.sub x b)) tol = false := by
  cases x with
  | nan => cases b <;> simp [Double.sub, Double.neg, Double.add, Double.abs, Double.lt]
  | inf s =>
    cases b with
    | nan => simp [Double.sub, Double.neg, Double.add, Double.abs, Double.lt]
    | inf t =>
      cases s <;> cases t <;> cases tol <;>
        simp [Double.sub, Double.neg, Double.add, Double.abs, Double.lt]
    | fin q =>
      cases tol <;> simp [Double.sub, Double.neg, Double.add, Double.abs, Double.lt]
  | fin q => simp [Double.isFinite] at h

theorem isEqual_not_finite (v r : JointPose) (tol : Double)
    (hv : ∃ x ∈ v, x.isFinite = false) : isEqual v r tol = false := by
  rw [← Bool.not_eq_true, isEqual_iff]
  intro h
  obtain ⟨x, hx, hnf⟩ := hv
  induction h with
  | nil => simp at hx
  | cons hab _ ih =>
    rw [List.mem_cons] at hx
    rcases hx with hxa | hx
    · rw [← hxa, dlt_abs_sub_not_finite x _ tol hnf] at hab
      exact Bool.noConfusion hab
    · exact ih hx

theorem tol6_pos : Double.lt (Double.fin 0) tol6 = true := by
  simp only [Double.lt, tol6, decide_eq_true_eq]
  positivity

theorem isInListLoop_iff (v : JointPose) (tol : Double) (list : List JointPose) :
    isInListLoop v tol list = true ↔ ∃ r ∈ list, isEqual v r tol = true := by
  induction list with
  | nil => simp [isInListLoop]
  | cons v2 rest ih =>
    unfold isInListLoop
    by_cases h : isEqual v v2 tol = true
    · simp [h]
    · simp [h, ih]

theorem isInList_iff (v : JointPose) (list : List JointPose) (tol : Double) :
    isInList v list tol = true ↔ ∃ r ∈ list, isEqual v r tol = true := by
  unfold isInList
  cases list with
  | nil => simp
  | cons v2 rest => simp [isInListLoop_iff]

theorem isInList_eq_false_iff (v : JointPose) (list : List JointPose) (tol : Double) :
    isInList v list tol = false ↔ ∀ r ∈ list, isEqual v r tol = false := by
  rw [← Bool.not_eq_true, isInList_iff]
  simp

/-! ## The loops of getAllIK -/

theorem solLoop_pairwise (isValid : JointPose → Bool) (sols joint_poses : List JointPose)
    (h : joint_poses.Pairwise (fun x y => isEqual x y tol6 = false)) :
    (solLoop isValid sols joint_poses).Pairwise (fun x y => isEqual x y tol6 = false) := by
  induction sols generalizing joint_poses with
  | nil => simpa [solLoop] using h
  | cons sol rest ih =>
    unfold solLoop
    split
    · rename_i hc
      apply ih
      rw [List.pairwise_append]
      refine ⟨h, by simp, ?_⟩
      intro x hx y hy
      simp only [List.mem_singleton] at hy
      subst hy
      simp only [Bool.and_eq_true, Bool.not_eq_true', isInList_eq_false_iff] at hc
      rw [isEqual_comm]
      exact hc.2 x hx
    · exact ih joint_poses h

theorem seedLoop_pairwise {P : Type} (solver : KinematicsSolver P)
    (isValid : JointPose → Bool) (poses : List P) (seeds : List JointPose)
    (st : List JointPose × List (IKCall P))
    (h : st.1.Pairwise (fun x y => isEqual x y tol6 = false)) :
    (seedLoop solver isValid poses seeds st).1.Pairwise
      (fun x y => isEqual x y tol6 = false) := by
  induction seeds generalizing st with
  | nil => simpa [seedLoop] using h
  | cons seed rest ih =>
    obtain ⟨joint_poses, calls⟩ := st
    unfold seedLoop
    simp only
    split
    · exact ih _ (solLoop_pairwise isValid _ _ h)
    · exact ih _ h

theorem getAllIK_pairwise {P : Type} [Mul P] (a : IkFastMoveitStateAdapter P) (pose : P)
    (joint_poses : List JointPose) :
    (getAllIK a pose joint_poses).joint_poses.Pairwise
      (fun x y => isEqual x y tol6 = false) := by
  unfold getAllIK
  exact seedLoop_pairwise _ _ _ _ _ (by simp [clear])

/-- C1: in the list returned by getAllIK, the entries at two distinct positions
are never tolerance-equal (isEqual with 1e-6 is false), whatever the pose, seeds,
solver, validity predicate and previous content of the output argument. -/
theorem getAllIK_no_duplicates {P : Type} [Mul P] (a : IkFastMoveitStateAdapter P)
    (pose : P) (joint_poses : List JointPose) (i j : Nat) (x y : JointPose)
    (hx : (getAllIK a pose joint_poses).joint_poses.get? i = some x)
    (hy : (getAllIK a pose joint_poses).joint_poses.get? j = some y)
    (hij : i ≠ j) :
    isEqual x y tol6 = false := by
  have hp := getAllIK_pairwise a pose joint_poses
  rw [List.pairwise_iff_getElem] at hp
  rw [List.get?_eq_getElem?, List.getElem?_eq_some] at hx hy
  obtain ⟨hi, rfl⟩ := hx
  obtain ⟨hj, rfl⟩ := hy
  rcases Nat.lt_or_gt_of_ne hij with h | h
  · exact hp i j hi hj h
  · rw [isEqual_comm]
    exact hp j i hj hi h

theorem isEqual_singleton (x y tol : Double) :
    isEqual [x] [y] tol = Double.lt (Double.abs (Double.sub x y)) tol := by
  simp [isEqual, std_equal]

theorem dadd_zero_one : (Double.fin 0).add (Double.fin 1) = Double.fin 1 := by
  have h := dadd_fin 0 1 1 0 (by norm_num) (by norm_num) (by norm_num) (by norm_num)
  simpa using h

theorem dsub_one_zero : (Double.fin 1).sub (Double.fin 0) = Double.fin 1 := by
  have h := dsub_fin 1 0 1 0 (by norm_num) (by norm_num) (by norm_num) (by norm_num)
  simpa using h

theorem dsub_zero_one : (Double.fin 0).sub (Double.fin 1) = Double.fin (-1) := by
  have h := dsub_fin 0 1 1 0 (by norm_num) (by norm_num) (by norm_num) (by norm_num)
  simpa using h

theorem tol6_lt_one : (4722366482869645 : ℚ) / 2 ^ 72 < 1 := by
  norm_num

theorem exAdapter_candidates (poses : List ℚ) :
    exAdapter.solver.getPositionIK poses [Double.fin 0] =
      (true, [[Double.fin 0], [Double.fin 1], [Double.fin 0], [Double.fin 7]]) := by
  simp [exAdapter, exSolver, dadd_zero_one]

theorem exAdapter_solLoop :
    solLoop exAdapter.isValid
        [[Double.fin 0], [Double.fin 1], [Double.fin 0], [Double.fin 7]] [] =
      [[Double.fin 0], [Double.fin 1]] := by
  have h1 : isEqual [Double.fin 1] [Double.fin 0] tol6 = false := by
    rw [isEqual_singleton, dsub_one_zero]
    simp only [Double.abs, Double.lt, tol6, abs_one, decide_eq_false_iff_not, not_lt]
    exact le_of_lt tol6_lt_one
  have h2 : isEqual [Double.fin 0] [Double.fin 0] tol6 = true :=
    isEqual_refl _ _ tol6_pos (by simp [Double.isFinite])
  have v0 : exAdapter.isValid [Double.fin 0] = true := by
    simp [exAdapter, Double.lt]
  have v1 : exAdapter.isValid [Double.fin 1] = true := by
    norm_num [exAdapter, Double.lt]
  have v7 : exAdapter.isValid [Double.fin 7] = false := by
    norm_num [exAdapter, Double.lt]
  simp [solLoop, isInList, isInListLoop, h1, h2, v0, v1, v7]

theorem exAdapter_getAllIK (pose : ℚ) (joint_poses : List JointPose) :
    (getAllIK exAdapter pose joint_poses).joint_poses = [[Double.fin 0], [Double.fin 1]] := by
  have hseeds : seedStatesUsed exAdapter = [[Double.fin 0]] := by
    simp [seedStatesUsed, exAdapter]
  simp only [getAllIK, clear, hseeds, seedLoop, exAdapter_candidates, if_true]
  exact exAdapter_solLoop

/-- The claim C1 at the concrete adapter: its two returned entries differ. -/
theorem getAllIK_no_duplicates_witness :
    isEqual [Double.fin 0] [Double.fin 1] tol6 = false :=
  getAllIK_no_duplicates exAdapter 1 [] 0 1 [Double.fin 0] [Double.fin 1]
    (by rw [exAdapter_getAllIK]; rfl) (by rw [exAdapter_getAllIK]; rfl) (by decide)

/-! ## What the loops append -/

theorem solLoop_eq_append (isValid : JointPose → Bool) (sols joint_poses : List JointPose) :
    ∃ added : List JointPose,
      solLoop isValid sols joint_poses = joint_poses ++ added ∧
        List.Sublist added (sols.filter isValid) := by
  induction sols generalizing joint_poses with
  | nil => exact ⟨[], by simp [solLoop]⟩
  | cons sol rest ih =>
    unfold solLoop
    split
    · rename_i hc
      simp only [Bool.and_eq_true] at hc
      obtain ⟨added, h1, h2⟩ := ih (joint_poses ++ [sol])
      refine ⟨sol :: added, by simp [h1], ?_⟩
      rw [List.filter_cons_of_pos hc.1]
      exact h2.cons₂ sol
    · obtain ⟨added, h1, h2⟩ := ih joint_poses
      refine ⟨added, h1, ?_⟩
      by_cases hv : isValid sol = true
      · rw [List.filter_cons_of_pos hv]
        exact h2.cons sol
      · rw [List.filter_cons_of_neg hv]
        exact h2

theorem solverCandidates_cons {P : Type} (solver : KinematicsSolver P) (poses : List P)
    (seed : JointPose) (rest : List JointPose) :
    solverCandidates solver poses (seed :: rest) =
      (if (solver.getPositionIK poses seed).1 then (solver.getPositionIK poses seed).2 else [])
        ++ solverCandidates solver poses rest := by
  simp [solverCandidates]

theorem seedLoop_eq_append {P : Type} (solver : KinematicsSolver P)
    (isValid : JointPose → Bool) (poses : List P) (seeds : List JointPose)
    (st : List JointPose × List (IKCall P)) :
    ∃ added : List JointPose,
      (seedLoop solver isValid poses seeds st).1 = st.1 ++ added ∧
        List.Sublist added ((solverCandidates solver poses seeds).filter isValid) := by
  induction seeds generalizing st with
  | nil => exact ⟨[], by simp [seedLoop]⟩
  | cons seed rest ih =>
    obtain ⟨joint_poses, calls⟩ := st
    unfold seedLoop
    rw [solverCandidates_cons, List.filter_append]
    simp only
    split
    · rename_i hok
      obtain ⟨add1, h1, h2⟩ := solLoop_eq_append isValid (solver.getPositionIK poses seed).2 joint_poses
      obtain ⟨add2, h3, h4⟩ := ih (solLoop isValid (solver.getPositionIK poses seed).2 joint_poses,
        calls ++ [(poses, seed)])
      refine ⟨add1 ++ add2, ?_, ?_⟩
      · rw [h3]
        simp only
        rw [h1, List.append_assoc]
      · exact h2.append h4
    · rename_i hok
      obtain ⟨add2, h3, h4⟩ := ih (joint_poses, calls ++ [(poses, seed)])
      refine ⟨add2, h3, ?_⟩
      simpa using h4

theorem getAllIK_sublist {P : Type} [Mul P] (a : IkFastMoveitStateAdapter P) (pose : P)
    (joint_poses : List JointPose) :
    List.Sublist (getAllIK a pose joint_poses).joint_poses
      ((solverCandidates a.solver [toolPose a pose] (seedStatesUsed a)).filter a.isValid) := by
  obtain ⟨added, h1, h2⟩ :=
    seedLoop_eq_append a.solver a.isValid [toolPose a pose] (seedStatesUsed a) (clear joint_poses, [])
  unfold getAllIK
  simp only
  rw [h1]
  simpa [clear] using h2

theorem mem_solverCandidates {P : Type} (solver : KinematicsSolver P) (poses : List P)
    (seeds : List JointPose) (x : JointPose) :
    x ∈ solverCandidates solver poses seeds ↔
      ∃ seed ∈ seeds, (solver.getPositionIK poses seed).1 = true ∧
        x ∈ (solver.getPositionIK poses seed).2 := by
  unfold solverCandidates
  rw [List.mem_flatMap]
  constructor
  · rintro ⟨seed, hs, hx⟩
    by_cases hok : (solver.getPositionIK poses seed).1 = true
    · rw [if_pos hok] at hx
      exact ⟨seed, hs, hok, hx⟩
    · rw [if_neg hok] at hx
      simp at hx
  · rintro ⟨seed, hs, hok, hx⟩
    exact ⟨seed, hs, by rw [if_pos hok]; exact hx⟩

/-- C2: every configuration getAllIK returns satisfies isValid and is among the
joint_results of a successful getPositionIK call for the transformed pose and a
seed of the seed list used; and the returned list is a subsequence of the
concatenation, in seed order then solver order, of the valid candidates of the
successful calls. -/
theorem getAllIK_sound {P : Type} [Mul P] (a : IkFastMoveitStateAdapter P) (pose : P)
    (joint_poses : List JointPose) :
    (∀ x ∈ (getAllIK a pose joint_poses).joint_poses,
        a.isValid x = true ∧
          ∃ seed ∈ seedStatesUsed a,
            (a.solver.getPositionIK [toolPose a pose] seed).1 = true ∧
              x ∈ (a.solver.getPositionIK [toolPose a pose] seed).2) ∧
      List.Sublist (getAllIK a pose joint_poses).joint_poses
        ((solverCandidates a.solver [toolPose a pose] (seedStatesUsed a)).filter a.isValid) := by
  refine ⟨?_, getAllIK_sublist a pose joint_poses⟩
  intro x hx
  have hmem := (getAllIK_sublist a pose joint_poses).subset hx
  rw [List.mem_filter, mem_solverCandidates] at hmem
  exact ⟨hmem.2, hmem.1⟩


/-! ## Nothing valid and finite is lost up to tolerance -/

theorem mem_solLoop_of_mem (isValid : JointPose → Bool) (sols joint_poses : List JointPose)
    (x : JointPose) (hx : x ∈ joint_poses) : x ∈ solLoop isValid sols joint_poses := by
  obtain ⟨added, h1, _⟩ := solLoop_eq_append isValid sols joint_poses
  rw [h1]
  exact List.mem_append_left _ hx

theorem mem_seedLoop_of_mem {P : Type} (solver : KinematicsSolver P)
    (isValid : JointPose → Bool) (poses : List P) (seeds : List JointPose)
    (st : List JointPose × List (IKCall P)) (x : JointPose) (hx : x ∈ st.1) :
    x ∈ (seedLoop solver isValid poses seeds st).1 := by
  obtain ⟨added, h1, _⟩ := seedLoop_eq_append solver isValid poses seeds st
  rw [h1]
  exact List.mem_append_left _ hx

theorem solLoop_complete (isValid : JointPose → Bool) (sols joint_poses : List JointPose)
    (c : JointPose) (hc : c ∈ sols) (hv : isValid c = true)
    (hfin : ∀ x ∈ c, x.isFinite = true) :
    ∃ r ∈ solLoop isValid sols joint_poses, isEqual c r tol6 = true := by
  induction sols generalizing joint_poses with
  | nil => simp at hc
  | cons sol rest ih =>
    rw [List.mem_cons] at hc
    rcases hc with rfl | hc
    · unfold solLoop
      split
      · exact ⟨c, mem_solLoop_of_mem isValid rest _ c (by simp), isEqual_refl c tol6 tol6_pos hfin⟩
      · rename_i hcond
        simp only [Bool.and_eq_true, hv, true_and, Bool.not_eq_true', Bool.not_eq_false,
          isInList_iff] at hcond
        obtain ⟨r, hr, he⟩ := hcond
        exact ⟨r, mem_solLoop_of_mem isValid rest _ r hr, he⟩
    · unfold solLoop
      split
      · exact ih _ hc
      · exact ih _ hc

theorem seedLoop_complete {P : Type} (solver : KinematicsSolver P)
    (isValid : JointPose → Bool) (poses : List P) (seeds : List JointPose)
    (st : List JointPose × List (IKCall P)) (seed c : JointPose) (hs : seed ∈ seeds)
    (hok : (solver.getPositionIK poses seed).1 = true)
    (hc : c ∈ (solver.getPositionIK poses seed).2) (hv : isValid c = true)
    (hfin : ∀ x ∈ c, x.isFinite = true) :
    ∃ r ∈ (seedLoop solver isValid poses seeds st).1, isEqual c r tol6 = true := by
  induction seeds generalizing st with
  | nil => simp at hs
  | cons s rest ih =>
    obtain ⟨joint_poses, calls⟩ := st
    rw [List.mem_cons] at hs
    rcases hs with rfl | hs
    · unfold seedLoop
      simp only [hok, if_true]
      obtain ⟨r, hr, he⟩ := solLoop_complete isValid _ joint_poses c hc hv hfin
      exact ⟨r, mem_seedLoop_of_mem solver isValid poses rest _ r hr, he⟩
    · unfold seedLoop
      simp only
      split
      · exact ih _ hs
      · exact ih _ hs

theorem getAllIK_complete_aux {P : Type} [Mul P] (a : IkFastMoveitStateAdapter P) (pose : P)
    (joint_poses : List JointPose) (seed c : JointPose) (hs : seed ∈ seedStatesUsed a)
    (hok : (a.solver.getPositionIK [toolPose a pose] seed).1 = true)
    (hc : c ∈ (a.solver.getPositionIK [toolPose a pose] seed).2) (hv : a.isValid c = true)
    (hfin : ∀ x ∈ c, x.isFinite = true) :
    ∃ r ∈ (getAllIK a pose joint_poses).joint_poses, isEqual c r tol6 = true := by
  unfold getAllIK
  exact seedLoop_complete a.solver a.isValid [toolPose a pose] (seedStatesUsed a) _ seed c hs hok
    hc hv hfin

/-- C3 (as amended): getAllIK loses no finite solution up to tolerance: for every
seed of the seed list used and every candidate c returned by a successful
getPositionIK call for the transformed pose and that seed, if isValid c holds and
every joint value of c is finite (neither NaN nor infinite) then the returned list
has an entry r with isEqual c r 1e-6. -/
theorem getAllIK_complete {P : Type} [Mul P] (a : IkFastMoveitStateAdapter P) (pose : P)
    (joint_poses : List JointPose) (seed c : JointPose) (hs : seed ∈ seedStatesUsed a)
    (hok : (a.solver.getPositionIK [toolPose a pose] seed).1 = true)
    (hc : c ∈ (a.solver.getPositionIK [toolPose a pose] seed).2) (hv : a.isValid c = true)
    (hfin : ∀ x ∈ c, x.isFinite = true) :
    ∃ r ∈ (getAllIK a pose joint_poses).joint_poses, isEqual c r tol6 = true :=
  getAllIK_complete_aux a pose joint_poses seed c hs hok hc hv hfin

/-- The amended claim C3 at the concrete adapter: the repeated candidate 0 of seed 0
is represented in the returned list. -/
theorem getAllIK_complete_witness :
    ∃ r ∈ (getAllIK exAdapter 1 []).joint_poses, isEqual [Double.fin 0] r tol6 = true :=
  getAllIK_complete exAdapter 1 [] [Double.fin 0] [Double.fin 0]
    (by simp [seedStatesUsed, exAdapter])
    (by rw [exAdapter_candidates])
    (by rw [exAdapter_candidates]; simp)
    (by simp [exAdapter, Double.lt])
    (by simp [Double.isFinite])

theorem exNaNAdapter_getAllIK (pose : ℚ) (joint_poses : List JointPose) :
    (getAllIK exNaNAdapter pose joint_poses).joint_poses = [[Double.nan]] := by
  simp [getAllIK, clear, seedStatesUsed, exNaNAdapter, exAdapter, seedLoop, exNaNSolver,
    solLoop, isInList, Double.lt]

/-- C3 as stated fails: the solver succeeds for the seed 0 with the single
candidate NaN, which passes the joint-limit test, and the list getAllIK returns,
which consists of that candidate, has no entry tolerance-equal to it. -/
theorem getAllIK_complete_counterexample :
    [Double.fin 0] ∈ seedStatesUsed exNaNAdapter ∧
      (exNaNAdapter.solver.getPositionIK [toolPose exNaNAdapter 1] [Double.fin 0]).1 = true ∧
      [Double.nan] ∈
        (exNaNAdapter.solver.getPositionIK [toolPose exNaNAdapter 1] [Double.fin 0]).2 ∧
      exNaNAdapter.isValid [Double.nan] = true ∧
      (getAllIK exNaNAdapter 1 []).joint_poses = [[Double.nan]] ∧
      ∀ r ∈ (getAllIK exNaNAdapter 1 []).joint_poses, isEqual [Double.nan] r tol6 = false := by
  refine ⟨by simp [seedStatesUsed, exNaNAdapter, exAdapter], by simp [exNaNAdapter, exNaNSolver],
    by simp [exNaNAdapter, exNaNSolver], by simp [exNaNAdapter, Double.lt],
    exNaNAdapter_getAllIK 1 [], ?_⟩
  intro r _
  exact isEqual_not_finite _ r tol6 ⟨Double.nan, by simp, rfl⟩

/-! ## When the list is non-empty -/

theorem solLoop_ne_nil (isValid : JointPose → Bool) (sols joint_poses : List JointPose)
    (h : joint_poses ≠ [] ∨ ∃ c ∈ sols, isValid c = true) :
    solLoop isValid sols joint_poses ≠ [] := by
  induction sols generalizing joint_poses with
  | nil =>
    rcases h with h | ⟨c, hc, _⟩
    · simpa [solLoop] using h
    · simp at hc
  | cons sol rest ih =>
    unfold solLoop
    split
    · exact ih _ (Or.inl (by simp))
    · rename_i hcond
      rcases h with h | ⟨c, hc, hv⟩
      · exact ih _ (Or.inl h)
      · rw [List.mem_cons] at hc
        rcases hc with rfl | hc
        · simp only [Bool.and_eq_true, hv, true_and, Bool.not_eq_true', Bool.not_eq_false,
            isInList_iff] at hcond
          obtain ⟨r, hr, _⟩ := hcond
          exact ih _ (Or.inl (List.ne_nil_of_mem hr))
        · exact ih _ (Or.inr ⟨c, hc, hv⟩)

theorem seedLoop_ne_nil {P : Type} (solver : KinematicsSolver P)
    (isValid : JointPose → Bool) (poses : List P) (seeds : List JointPose)
    (st : List JointPose × List (IKCall P))
    (h : st.1 ≠ [] ∨ ∃ seed ∈ seeds, (solver.getPositionIK poses seed).1 = true ∧
      ∃ c ∈ (solver.getPositionIK poses seed).2, isValid c = true) :
    (seedLoop solver isValid poses seeds st).1 ≠ [] := by
  induction seeds generalizing st with
  | nil =>
    rcases h with h | ⟨seed, hs, _⟩
    · simpa [seedLoop] using h
    · simp at hs
  | cons s rest ih =>
    obtain ⟨joint_poses, calls⟩ := st
    unfold seedLoop
    simp only
    split
    · rename_i hok
      apply ih
      rcases h with h | ⟨seed, hs, hsok, c, hc, hv⟩
      · exact Or.inl (solLoop_ne_nil isValid _ _ (Or.inl h))
      · rw [List.mem_cons] at hs
        rcases hs with rfl | hs
        · exact Or.inl (solLoop_ne_nil isValid _ _ (Or.inr ⟨c, hc, hv⟩))
        · exact Or.inr ⟨seed, hs, hsok, c, hc, hv⟩
    · rename_i hok
      apply ih
      rcases h with h | ⟨seed, hs, hsok, c, hc, hv⟩
      · exact Or.inl h
      · rw [List.mem_cons] at hs
        rcases hs with rfl | hs
        · exact absurd hsok hok
        · exact Or.inr ⟨seed, hs, hsok, c, hc, hv⟩

theorem getAllIK_ne_nil_iff {P : Type} [Mul P] (a : IkFastMoveitStateAdapter P) (pose : P)
    (joint_poses : List JointPose) :
    (getAllIK a pose joint_poses).joint_poses ≠ [] ↔
      ∃ seed ∈ seedStatesUsed a,
        (a.solver.getPositionIK [toolPose a pose] seed).1 = true ∧
          ∃ c ∈ (a.solver.getPositionIK [toolPose a pose] seed).2, a.isValid c = true := by
  constructor
  · intro hne
    obtain ⟨x, hx⟩ := List.exists_mem_of_ne_nil _ hne
    have hmem := (getAllIK_sublist a pose joint_poses).subset hx
    rw [List.mem_filter, mem_solverCandidates] at hmem
    obtain ⟨⟨seed, hs, hok, hxs⟩, hv⟩ := hmem
    exact ⟨seed, hs, hok, x, hxs, hv⟩
  · intro h
    unfold getAllIK
    exact seedLoop_ne_nil a.solver a.isValid [toolPose a pose] (seedStatesUsed a) _ (Or.inr h)

theorem getAllIK_ret_true_iff_ne_nil {P : Type} [Mul P] (a : IkFastMoveitStateAdapter P)
    (pose : P) (joint_poses : List JointPose) :
    (getAllIK a pose joint_poses).ret = true ↔
      (getAllIK a pose joint_poses).joint_poses ≠ [] := by
  simp [getAllIK, List.length_pos]

theorem getAllIK_ret_true_iff {P : Type} [Mul P] (a : IkFastMoveitStateAdapter P) (pose : P)
    (joint_poses : List JointPose) :
    (getAllIK a pose joint_poses).ret = true ↔
      ∃ seed ∈ seedStatesUsed a,
        (a.solver.getPositionIK [toolPose a pose] seed).1 = true ∧
          ∃ c ∈ (a.solver.getPositionIK [toolPose a pose] seed).2, a.isValid c = true := by
  rw [getAllIK_ret_true_iff_ne_nil, getAllIK_ne_nil_iff]

/-- C4: getAllIK returns true exactly when the list it returns is non-empty; the
list is non-empty exactly when, for some seed of the seed list used, the solver
call reports success and returns a candidate satisfying isValid; and when it
returns false the list is empty. -/
theorem getAllIK_ret_iff {P : Type} [Mul P] (a : IkFastMoveitStateAdapter P) (pose : P)
    (joint_poses : List JointPose) :
    ((getAllIK a pose joint_poses).ret = true ↔ (getAllIK a pose joint_poses).joint_poses ≠ []) ∧
      ((getAllIK a pose joint_poses).joint_poses ≠ [] ↔
        ∃ seed ∈ seedStatesUsed a,
          (a.solver.getPositionIK [toolPose a pose] seed).1 = true ∧
            ∃ c ∈ (a.solver.getPositionIK [toolPose a pose] seed).2, a.isValid c = true) ∧
      ((getAllIK a pose joint_poses).ret = false →
        (getAllIK a pose joint_poses).joint_poses = []) := by
  have hret := getAllIK_ret_true_iff_ne_nil a pose joint_poses
  refine ⟨hret, getAllIK_ne_nil_iff a pose joint_poses, ?_⟩
  intro hf
  by_contra hne
  rw [hret.mpr hne] at hf
  exact Bool.noConfusion hf

/-! ## The closest candidate -/

theorem closestJointPoseLoop_some_length (target : JointPose) (rest : List JointPose)
    (i : Nat) (st r : Nat × Double) (h : closestJointPoseLoop target rest i st = some r) :
    ∀ c ∈ rest, target.length = c.length := by
  induction rest generalizing i st with
  | nil => simp
  | cons cand rest ih =>
    obtain ⟨closest, lowest⟩ := st
    unfold closestJointPoseLoop at h
    by_cases hl : target.length = cand.length
    · simp only [hl, bne_self_eq_false, Bool.false_eq_true, if_false] at h
      intro c hc
      rw [List.mem_cons] at hc
      rcases hc with rfl | hc
      · exact hl
      · by_cases hlt : Double.lt (distance target cand) lowest = true
        · rw [if_pos hlt] at h
          exact ih _ _ h c hc
        · rw [if_neg hlt] at h
          exact ih _ _ h c hc
    · have hb : (target.length != cand.length) = true := by simpa using hl
      rw [if_pos hb] at h
      exact Option.noConfusion h

theorem closestJointPoseLoop_total (target : JointPose) (rest : List JointPose)
    (i : Nat) (st : Nat × Double) (hlen : ∀ c ∈ rest, target.length = c.length) :
    ∃ r, closestJointPoseLoop target rest i st = some r := by
  induction rest generalizing i st with
  | nil => exact ⟨st, rfl⟩
  | cons cand rest ih =>
    obtain ⟨closest, lowest⟩ := st
    have hl : target.length = cand.length := hlen cand (List.mem_cons_self _ _)
    have hrest : ∀ c ∈ rest, target.length = c.length :=
      fun c hc => hlen c (List.mem_cons_of_mem _ hc)
    unfold closestJointPoseLoop
    simp only [hl, bne_self_eq_false, Bool.false_eq_true, if_false]
    split
    · exact ih _ _ hrest
    · exact ih _ _ hrest

theorem closestJointPoseLoop_index (target : JointPose) (rest : List JointPose)
    (i : Nat) (st r : Nat × Double) (h : closestJointPoseLoop target rest i st = some r) :
    r.1 = st.1 ∨ (i ≤ r.1 ∧ r.1 < i + rest.length) := by
  induction rest generalizing i st with
  | nil =>
    simp only [closestJointPoseLoop, Option.some.injEq] at h
    exact Or.inl (by rw [h])
  | cons cand rest ih =>
    obtain ⟨closest, lowest⟩ := st
    unfold closestJointPoseLoop at h
    split at h
    · exact Option.noConfusion h
    · simp only at h
      split at h
      · rcases ih _ _ h with h1 | ⟨h1, h2⟩
        · exact Or.inr ⟨by simp only at h1; omega, by simp only [List.length_cons] at h1 ⊢; omega⟩
        · exact Or.inr ⟨by omega, by simp only [List.length_cons]; omega⟩
      · rcases ih _ _ h with h1 | ⟨h1, h2⟩
        · exact Or.inl h1
        · exact Or.inr ⟨by omega, by simp only [List.length_cons]; omega⟩

/-- What the selection loop ends with: a lowest cost that no remaining candidate
undercuts, and either the state it started from or the index and distance of one
of the candidates. -/
theorem closestJointPoseLoop_select (target : JointPose) (rest : List JointPose)
    (i closest k : Nat) (lowest l : Double)
    (h : closestJointPoseLoop target rest i (closest, lowest) = some (k, l)) :
    (l = lowest ∨ Double.lt l lowest = true) ∧
      (∀ c ∈ rest, Double.lt (distance target c) l = false) ∧
      ((k = closest ∧ l = lowest) ∨
        ∃ j cj, rest.get? j = some cj ∧ k = i + j ∧ l = distance target cj) := by
  induction rest generalizing i closest lowest with
  | nil =>
    simp only [closestJointPoseLoop, Option.some.injEq, Prod.mk.injEq] at h
    obtain ⟨rfl, rfl⟩ := h
    exact ⟨Or.inl rfl, by simp, Or.inl ⟨rfl, rfl⟩⟩
  | cons cand rest ih =>
    unfold closestJointPoseLoop at h
    split at h
    · exact Option.noConfusion h
    · simp only at h
      by_cases hc : Double.lt (distance target cand) lowest = true
      · rw [if_pos hc] at h
        obtain ⟨h1, h2, h3⟩ := ih _ _ _ h
        refine ⟨Or.inr ?_, ?_, Or.inr ?_⟩
        · rcases h1 with rfl | h1
          · exact hc
          · exact dlt_trans _ _ _ h1 hc
        · intro c hcm
          rw [List.mem_cons] at hcm
          rcases hcm with rfl | hcm
          · exact dlt_false_of_le _ _ _ h1 (dlt_irrefl _)
          · exact h2 c hcm
        · rcases h3 with ⟨rfl, rfl⟩ | ⟨j, cj, hj, rfl, rfl⟩
          · exact ⟨0, cand, rfl, rfl, rfl⟩
          · exact ⟨j + 1, cj, hj, by omega, rfl⟩
      · rw [if_neg hc] at h
        have hc2 : Double.lt (distance target cand) lowest = false := by simpa using hc
        obtain ⟨h1, h2, h3⟩ := ih _ _ _ h
        refine ⟨h1, ?_, ?_⟩
        · intro c hcm
          rw [List.mem_cons] at hcm
          rcases hcm with rfl | hcm
          · exact dlt_false_of_le _ _ _ h1 hc2
          · exact h2 c hcm
        · rcases h3 with ⟨rfl, rfl⟩ | ⟨j, cj, hj, rfl, rfl⟩
          · exact Or.inl ⟨rfl, rfl⟩
          · exact Or.inr ⟨j + 1, cj, hj, by omega, rfl⟩

theorem closestJointPose_some_loop (target : JointPose) (candidates : List JointPose) (i : Nat)
    (h : closestJointPose target candidates = some i) :
    ∃ l, closestJointPoseLoop target candidates 0 (0, DBL_MAX) = some (i, l) := by
  unfold closestJointPose at h
  cases hloop : closestJointPoseLoop target candidates 0 (0, DBL_MAX) with
  | none => rw [hloop] at h; exact Option.noConfusion h
  | some kl =>
    rw [hloop, Option.map_some', Option.some.injEq] at h
    exact ⟨kl.2, by rw [← h]⟩

theorem closestJointPose_lt_length (target : JointPose) (candidates : List JointPose)
    (hne : candidates ≠ []) (i : Nat) (h : closestJointPose target candidates = some i) :
    i < candidates.length := by
  obtain ⟨l, hl⟩ := closestJointPose_some_loop target candidates i h
  rcases closestJointPoseLoop_index target candidates 0 _ _ hl with h1 | ⟨_, h2⟩
  · simp only at h1
    rw [h1]
    exact List.length_pos.mpr hne
  · simpa using h2

theorem closestJointPose_total (target : JointPose) (candidates : List JointPose)
    (hne : candidates ≠ []) (hlen : ∀ c ∈ candidates, c.length = target.length) :
    ∃ i, closestJointPose target candidates = some i ∧ i < candidates.length := by
  obtain ⟨r, hr⟩ := closestJointPoseLoop_total target candidates 0 (0, DBL_MAX)
    (fun c hc => (hlen c hc).symm)
  have h : closestJointPose target candidates = some r.1 := by
    simp [closestJointPose, hr]
  exact ⟨r.1, h, closestJointPose_lt_length target candidates hne r.1 h⟩

/-! ## The range of distance -/

theorem dadd_fin_le (x y : Double) (v : ℚ) (h : x.add y = Double.fin v) :
    v ≤ 2 ^ (1024 : ℕ) - 2 ^ (971 : ℕ) := by
  cases x with
  | nan => cases y <;> simp [Double.add] at h
  | inf s =>
    cases y with
    | nan => simp [Double.add] at h
    | inf t =>
      simp only [Double.add] at h
      split at h <;> exact Double.noConfusion h
    | fin q => simp [Double.add] at h
  | fin p =>
    cases y with
    | nan => simp [Double.add] at h
    | inf t => simp [Double.add] at h
    | fin q =>
      simp only [Double.add] at h
      exact le_trans (le_abs_self v) (roundQ_fin_le _ v h)

theorem foldl_dadd_fin_le (f : Nat → Double) (l : List Nat) (init : Double)
    (hinit : ∀ v, init = Double.fin v → v ≤ 2 ^ (1024 : ℕ) - 2 ^ (971 : ℕ)) (v : ℚ)
    (h : l.foldl (fun cost i => Double.add cost (f i)) init = Double.fin v) :
    v ≤ 2 ^ (1024 : ℕ) - 2 ^ (971 : ℕ) := by
  induction l generalizing init with
  | nil => exact hinit v h
  | cons i rest ih =>
    simp only [List.foldl_cons] at h
    exact ih (Double.add init (f i)) (fun w hw => dadd_fin_le _ _ w hw) h

theorem distance_fin_le (a b : JointPose) (v : ℚ) (h : distance a b = Double.fin v) :
    v ≤ 2 ^ (1024 : ℕ) - 2 ^ (971 : ℕ) := by
  unfold distance at h
  refine foldl_dadd_fin_le _ _ _ ?_ v h
  intro w hw
  rw [Double.fin.injEq] at hw
  rw [← hw]
  have : (2 : ℚ) ^ (971 : ℕ) ≤ 2 ^ (1024 : ℕ) := pow_le_pow_right₀ (by norm_num) (by norm_num)
  linarith

/-! ## Evaluating distance -/

theorem distance_singleton (x y : Double) :
    distance [x] [y] = Double.add (Double.fin 0) (Double.abs (Double.sub y x)) := by
  simp [distance, List.range_succ]

theorem dadd_int (p q : ℚ) (z : ℕ) (hz : |p + q| = z) (hlt : z < 2 ^ 53) :
    (Double.fin p).add (Double.fin q) = Double.fin (p + q) :=
  dadd_fin p q z 0 hlt (by norm_num) (by norm_num) (by simpa using hz)

theorem dsub_int (p q : ℚ) (z : ℕ) (hz : |p - q| = z) (hlt : z < 2 ^ 53) :
    (Double.fin p).sub (Double.fin q) = Double.fin (p - q) :=
  dsub_fin p q z 0 hlt (by norm_num) (by norm_num) (by simpa using hz)

theorem distance_int (x y : ℚ) (z : ℕ) (hz : |y - x| = z) (hlt : z < 2 ^ 53) :
    distance [Double.fin x] [Double.fin y] = Double.fin z := by
  rw [distance_singleton, dsub_int y x z hz hlt]
  simp only [Double.abs, hz]
  rw [dadd_int 0 z z (by simp) hlt]
  simp

theorem DBL_MAX_value_pos : (0 : ℚ) < 2 ^ (1024 : ℕ) - 2 ^ (971 : ℕ) := by
  have : (2 : ℚ) ^ (971 : ℕ) < 2 ^ (1024 : ℕ) := pow_lt_pow_right₀ (by norm_num) (by norm_num)
  linarith

theorem DBL_MAX_value_eq :
    (2 : ℚ) ^ (1024 : ℕ) - 2 ^ (971 : ℕ) = ((2 ^ 53 - 1 : ℕ) : ℚ) * 2 ^ (971 : ℤ) := by
  have h971 : (2 : ℚ) ^ (971 : ℤ) = 2 ^ (971 : ℕ) := zpow_natCast (2 : ℚ) 971
  have h1024 : (2 : ℚ) ^ (1024 : ℕ) = 2 ^ (53 : ℕ) * 2 ^ (971 : ℕ) := by rw [← pow_add]
  rw [h971, h1024]
  push_cast
  ring

theorem roundQ_DBL_MAX :
    roundQ (2 ^ (1024 : ℕ) - 2 ^ (971 : ℕ)) = Double.fin (2 ^ (1024 : ℕ) - 2 ^ (971 : ℕ)) := by
  apply roundQ_exact _ (2 ^ 53 - 1) 971 (by norm_num) (by norm_num) (by norm_num)
  rw [abs_of_pos DBL_MAX_value_pos]
  exact DBL_MAX_value_eq

/-- The distance from -DBL_MAX to 0 is DBL_MAX. -/
theorem distance_neg_max_zero :
    distance [DBL_MAX.neg] [Double.fin 0] = DBL_MAX := by
  rw [distance_singleton]
  have h1 : (Double.fin 0).sub DBL_MAX.neg = DBL_MAX := by
    show roundQ (0 + - -(2 ^ (1024 : ℕ) - 2 ^ (971 : ℕ))) = DBL_MAX
    rw [neg_neg, zero_add]
    exact roundQ_DBL_MAX
  rw [h1]
  show roundQ (0 + |(2 : ℚ) ^ (1024 : ℕ) - 2 ^ (971 : ℕ)|) = DBL_MAX
  rw [abs_of_pos DBL_MAX_value_pos, zero_add]
  exact roundQ_DBL_MAX

/-- The distance from -DBL_MAX to DBL_MAX overflows to +infinity. -/
theorem distance_neg_max_max :
    distance [DBL_MAX.neg] [DBL_MAX] = Double.inf false := by
  rw [distance_singleton]
  have h1 : DBL_MAX.sub DBL_MAX.neg = Double.inf false := by
    show roundQ ((2 ^ (1024 : ℕ) - 2 ^ (971 : ℕ)) + - -(2 ^ (1024 : ℕ) - 2 ^ (971 : ℕ))) =
      Double.inf false
    rw [neg_neg]
    have hpos := DBL_MAX_value_pos
    have hbig : (2 : ℚ) ^ (1024 : ℕ) ≤
        (2 ^ (1024 : ℕ) - 2 ^ (971 : ℕ)) + (2 ^ (1024 : ℕ) - 2 ^ (971 : ℕ)) := by
      have h2 : (2 : ℚ) ^ (1024 : ℕ) = 2 * 2 ^ (1023 : ℕ) := by
        rw [show (1024 : ℕ) = 1023 + 1 from rfl, pow_succ]
        ring
      have h3 : (2 : ℚ) ^ (1023 : ℕ) = 2 ^ (52 : ℕ) * 2 ^ (971 : ℕ) := by rw [← pow_add]
      have h4 : (0 : ℚ) < 2 ^ (971 : ℕ) := pow_pos (by norm_num) 971
      rw [h2, h3]
      nlinarith
    have hq : ¬ ((2 ^ (1024 : ℕ) - 2 ^ (971 : ℕ)) + (2 ^ (1024 : ℕ) - 2 ^ (971 : ℕ)) < (0 : ℚ)) := by
      linarith
    have hq0 : ¬ ((2 ^ (1024 : ℕ) - 2 ^ (971 : ℕ)) + (2 ^ (1024 : ℕ) - 2 ^ (971 : ℕ)) = (0 : ℚ)) := by
      intro h0
      linarith
    simp only [roundQ, hq, hq0, if_false]
    exact roundPos_overflow _ hbig
  rw [h1]
  rfl

/-- C6: the code's failure at a concrete input.  With the target -DBL_MAX and the
candidates DBL_MAX and 0 (one joint each, lengths equal) closestJointPose returns
index 0, whose distance from the target is +infinity, although the candidate at
index 1 has the strictly smaller distance DBL_MAX: the initial lowest_cost, the
largest finite double, is never undercut. -/
theorem closestJointPose_sentinel :
    closestJointPose [DBL_MAX.neg] [[DBL_MAX], [Double.fin 0]] = some 0 ∧
      distance [DBL_MAX.neg] [DBL_MAX] = Double.inf false ∧
      distance [DBL_MAX.neg] [Double.fin 0] = DBL_MAX ∧
      Double.lt (distance [DBL_MAX.neg] [Double.fin 0]) (distance [DBL_MAX.neg] [DBL_MAX]) =
        true := by
  refine ⟨?_, distance_neg_max_max, distance_neg_max_zero, ?_⟩
  · have hlen : ([DBL_MAX.neg] : JointPose).length = ([DBL_MAX] : JointPose).length := rfl
    have h1 : Double.lt (Double.inf false) DBL_MAX = false := rfl
    have h2 : Double.lt DBL_MAX DBL_MAX = false := dlt_irrefl _
    simp [closestJointPose, closestJointPoseLoop, distance_neg_max_max, distance_neg_max_zero,
      h1, h2]
  · rw [distance_neg_max_max, distance_neg_max_zero]
    rfl

/-! ## getIK -/

theorem getAllIK_clears {P : Type} [Mul P] (a : IkFastMoveitStateAdapter P) (pose : P)
    (joint_poses : List JointPose) : getAllIK a pose joint_poses = getAllIK a pose [] := rfl

theorem getIK_of_false {P : Type} [Mul P] (a : IkFastMoveitStateAdapter P) (pose : P)
    (seed_state joint_pose : JointPose) (h : (getAllIK a pose []).ret = false) :
    getIK a pose seed_state joint_pose = some (false, joint_pose) := by
  simp [getIK, h]

theorem getIK_of_true {P : Type} [Mul P] (a : IkFastMoveitStateAdapter P) (pose : P)
    (seed_state joint_pose : JointPose) (h : (getAllIK a pose []).ret = true) :
    getIK a pose seed_state joint_pose =
      (closestJointPose seed_state (getAllIK a pose []).joint_poses).bind
        (fun i => ((getAllIK a pose []).joint_poses.get? i).map (fun jp => (true, jp))) := by
  simp only [getIK, h, Bool.not_true, Bool.false_eq_true, if_false]
  cases closestJointPose seed_state (getAllIK a pose []).joint_poses with
  | none => rfl
  | some i =>
    simp only [Option.some_bind]
    cases (getAllIK a pose []).joint_poses.get? i with
    | none => rfl
    | some jp => rfl

theorem getIK_true_iff {P : Type} [Mul P] (a : IkFastMoveitStateAdapter P) (pose : P)
    (seed_state joint_pose jp : JointPose) :
    getIK a pose seed_state joint_pose = some (true, jp) ↔
      (getAllIK a pose []).ret = true ∧
        ∃ i, closestJointPose seed_state (getAllIK a pose []).joint_poses = some i ∧
          (getAllIK a pose []).joint_poses.get? i = some jp := by
  cases hret : (getAllIK a pose []).ret with
  | false => simp [getIK_of_false a pose seed_state joint_pose hret]
  | true =>
    rw [getIK_of_true a pose seed_state joint_pose hret]
    simp [Option.bind_eq_some]

theorem getIK_false_iff {P : Type} [Mul P] (a : IkFastMoveitStateAdapter P) (pose : P)
    (seed_state joint_pose jp : JointPose) :
    getIK a pose seed_state joint_pose = some (false, jp) ↔
      (getAllIK a pose []).ret = false ∧ jp = joint_pose := by
  cases hret : (getAllIK a pose []).ret with
  | false =>
    simp only [getIK_of_false a pose seed_state joint_pose hret, Option.some.injEq,
      Prod.mk.injEq, true_and]
    exact eq_comm
  | true =>
    rw [getIK_of_true a pose seed_state joint_pose hret]
    simp [Option.bind_eq_some]

/-- C7: getIK returns false exactly when getAllIK returns false for the same pose
and adapter (whatever the previous content of getAllIK's output argument); when it
returns false the caller's joint_pose is unchanged; when it returns true joint_pose
is the entry of getAllIK's list at index closestJointPose(seed_state, list); and
when getAllIK returns true and every entry of its list has the seed's length, getIK
does return true. -/
theorem getIK_ret_iff {P : Type} [Mul P] (a : IkFastMoveitStateAdapter P) (pose : P)
    (seed_state joint_pose : JointPose) (l : List JointPose) :
    ((∃ jp, getIK a pose seed_state joint_pose = some (false, jp)) ↔
        (getAllIK a pose l).ret = false) ∧
      (∀ jp, getIK a pose seed_state joint_pose = some (false, jp) → jp = joint_pose) ∧
      (∀ jp, getIK a pose seed_state joint_pose = some (true, jp) →
        ∃ i, closestJointPose seed_state (getAllIK a pose l).joint_poses = some i ∧
          (getAllIK a pose l).joint_poses.get? i = some jp) ∧
      ((getAllIK a pose l).ret = true →
        (∀ c ∈ (getAllIK a pose l).joint_poses, c.length = seed_state.length) →
        ∃ jp, getIK a pose seed_state joint_pose = some (true, jp)) := by
  rw [getAllIK_clears a pose l]
  refine ⟨?_, ?_, ?_, ?_⟩
  · constructor
    · rintro ⟨jp, h⟩
      exact ((getIK_false_iff a pose seed_state joint_pose jp).mp h).1
    · intro h
      exact ⟨joint_pose, getIK_of_false a pose seed_state joint_pose h⟩
  · intro jp h
    exact ((getIK_false_iff a pose seed_state joint_pose jp).mp h).2
  · intro jp h
    exact ((getIK_true_iff a pose seed_state joint_pose jp).mp h).2
  · intro hret hlen
    have hne : (getAllIK a pose []).joint_poses ≠ [] := by
      have h := hret
      simp only [getAllIK, decide_eq_true_eq] at h
      exact List.length_pos.mp h
    obtain ⟨i, h1, h2⟩ := closestJointPose_total seed_state _ hne hlen
    obtain ⟨jp, hjp⟩ : ∃ jp, (getAllIK a pose []).joint_poses.get? i = some jp :=
      ⟨_, List.get?_eq_get h2⟩
    exact ⟨jp, (getIK_true_iff a pose seed_state joint_pose jp).mpr ⟨hret, i, h1, hjp⟩⟩

/-- C5 (as amended): when getIK returns true, the configuration it returns is a
member of the list getAllIK produces for that pose from the adapter's configured
seed list (the caller's seed is not handed to the solver), and, unless the distance
computed for it has overflowed to +infinity, no member of that list has a strictly
smaller distance to the caller's seed, distance being the value the function
distance computes in double arithmetic. -/
theorem getIK_closest {P : Type} [Mul P] (a : IkFastMoveitStateAdapter P) (pose : P)
    (seed_state joint_pose q : JointPose)
    (h : getIK a pose seed_state joint_pose = some (true, q)) :
    q ∈ (getAllIK a pose []).joint_poses ∧
      (distance seed_state q ≠ Double.inf false →
        ∀ r ∈ (getAllIK a pose []).joint_poses,
          Double.lt (distance seed_state r) (distance seed_state q) = false) := by
  obtain ⟨_, i, hi, hq⟩ := (getIK_true_iff a pose seed_state joint_pose q).mp h
  refine ⟨List.get?_mem hq, ?_⟩
  intro hinf r hr
  obtain ⟨l, hl⟩ := closestJointPose_some_loop seed_state _ i hi
  obtain ⟨_, hmin, hsel⟩ := closestJointPoseLoop_select seed_state _ 0 0 i DBL_MAX l hl
  rcases hsel with ⟨_, rfl⟩ | ⟨j, cj, hj, hij, rfl⟩
  · have hq0 := hmin q (List.get?_mem hq)
    have hr0 := hmin r hr
    cases hd : distance seed_state q with
    | nan => cases distance seed_state r <;> rfl
    | inf s =>
      cases s with
      | false => exact absurd hd hinf
      | true =>
        rw [hd] at hq0
        exact Bool.noConfusion hq0
    | fin v =>
      have hle := distance_fin_le seed_state q v hd
      rw [hd] at hq0
      simp only [Double.lt, DBL_MAX, decide_eq_false_iff_not, not_lt] at hq0
      have hv : v = 2 ^ (1024 : ℕ) - 2 ^ (971 : ℕ) := le_antisymm hle hq0
      rw [hv]
      exact hr0
  · have hji : j = i := by omega
    rw [hji, hq, Option.some.injEq] at hj
    rw [hj]
    exact hmin r hr

theorem exAdapter_getAllIK_ret (pose : ℚ) (joint_poses : List JointPose) :
    (getAllIK exAdapter pose joint_poses).ret = true := by
  have h := exAdapter_getAllIK pose joint_poses
  simp only [getAllIK] at h ⊢
  rw [h]
  rfl

theorem distance_three_zero : distance [Double.fin 3] [Double.fin 0] = Double.fin 3 := by
  have h := distance_int 3 0 3 (by norm_num) (by norm_num)
  simpa using h

theorem distance_three_one : distance [Double.fin 3] [Double.fin 1] = Double.fin 2 := by
  have h := distance_int 3 1 2 (by norm_num [abs_of_neg]) (by norm_num)
  simpa using h

theorem exAdapter_closest :
    closestJointPose [Double.fin 3] [[Double.fin 0], [Double.fin 1]] = some 1 := by
  have n0 : Double.lt (Double.fin 3) DBL_MAX = true := by
    simp only [Double.lt, DBL_MAX, decide_eq_true_eq]
    have h1 : (2 : ℚ) ^ (1024 : ℕ) = 2 ^ (53 : ℕ) * 2 ^ (971 : ℕ) := by rw [← pow_add]
    have h2 : (1 : ℚ) ≤ 2 ^ (971 : ℕ) := one_le_pow₀ (by norm_num)
    rw [h1]
    nlinarith
  have n1 : Double.lt (Double.fin 2) (Double.fin 3) = true := by
    norm_num [Double.lt]
  simp [closestJointPose, closestJointPoseLoop, distance_three_zero, distance_three_one, n0, n1]

theorem exAdapter_getIK (joint_pose : JointPose) :
    getIK exAdapter 1 [Double.fin 3] joint_pose = some (true, [Double.fin 1]) := by
  rw [getIK_true_iff]
  refine ⟨exAdapter_getAllIK_ret 1 [], 1, ?_, ?_⟩
  · rw [exAdapter_getAllIK]
    exact exAdapter_closest
  · rw [exAdapter_getAllIK]
    rfl

/-- The amended claim C5 at the concrete adapter with the caller's seed 3: the
returned configuration 1 is in the list and no entry is strictly closer to 3. -/
theorem getIK_closest_witness :
    [Double.fin 1] ∈ (getAllIK exAdapter 1 []).joint_poses ∧
      ∀ r ∈ (getAllIK exAdapter 1 []).joint_poses,
        Double.lt (distance [Double.fin 3] r) (distance [Double.fin 3] [Double.fin 1]) =
          false := by
  obtain ⟨hmem, hmin⟩ := getIK_closest exAdapter 1 [Double.fin 3] [] [Double.fin 1]
    (exAdapter_getIK [])
  refine ⟨hmem, hmin ?_⟩
  rw [distance_three_one]
  simp

theorem dadd_three_one : (Double.fin 3).add (Double.fin 1) = Double.fin 4 := by
  have h := dadd_int 3 1 4 (by norm_num) (by norm_num)
  norm_num at h
  exact h

theorem dsub_four_three : (Double.fin 4).sub (Double.fin 3) = Double.fin 1 := by
  have h := dsub_int 4 3 1 (by norm_num) (by norm_num)
  norm_num at h
  exact h

theorem exAdapter_getAllIK_seed_three (pose : ℚ) (joint_poses : List JointPose) :
    (getAllIK { exAdapter with seed_states_ := [[Double.fin 3]] } pose joint_poses).joint_poses =
      [[Double.fin 3], [Double.fin 4]] := by
  have hcand : ∀ poses : List ℚ, exSolver.getPositionIK poses [Double.fin 3] =
      (true, [[Double.fin 3], [Double.fin 4], [Double.fin 3], [Double.fin 7]]) := by
    intro poses
    simp [exSolver, dadd_three_one]
  have h1 : isEqual [Double.fin 4] [Double.fin 3] tol6 = false := by
    rw [isEqual_singleton, dsub_four_three]
    simp only [Double.abs, Double.lt, tol6, abs_one, decide_eq_false_iff_not, not_lt]
    exact le_of_lt tol6_lt_one
  have h2 : isEqual [Double.fin 3] [Double.fin 3] tol6 = true :=
    isEqual_refl _ _ tol6_pos (by simp [Double.isFinite])
  have v3 : exAdapter.isValid [Double.fin 3] = true := by
    norm_num [exAdapter, Double.lt]
  have v4 : exAdapter.isValid [Double.fin 4] = true := by
    norm_num [exAdapter, Double.lt]
  have v7 : exAdapter.isValid [Double.fin 7] = false := by
    norm_num [exAdapter, Double.lt]
  show (seedLoop exSolver exAdapter.isValid [toolPose exAdapter pose] [[Double.fin 3]]
    ([], [])).1 = _
  simp only [seedLoop, hcand, if_true]
  simp [solLoop, isInList, isInListLoop, h1, h2, v3, v4, v7]

/-- C5 as stated fails: with the configured seed list [0] and the caller's seed 3,
getIK returns the configuration 1, which is not a member of the list getAllIK
produces when the seed list is exactly the caller's seed (that list is 3, 4). -/
theorem getIK_seed_counterexample :
    getIK exAdapter 1 [Double.fin 3] [] = some (true, [Double.fin 1]) ∧
      [Double.fin 1] ∉
        (getAllIK { exAdapter with seed_states_ := [[Double.fin 3]] } 1 []).joint_poses := by
  refine ⟨exAdapter_getIK [], ?_⟩
  rw [exAdapter_getAllIK_seed_three]
  simp


/-! ## getFK -/

theorem getFK_of_invalid {P : Type} [Mul P] (a : IkFastMoveitStateAdapter P)
    (joint_pose : JointPose) (pose : P) (h : a.isValid joint_pose = false) :
    getFK a joint_pose pose = some { ret := false, pose := pose, fkCalls := [] } := by
  simp [getFK, h]

theorem getFK_of_solver_failure {P : Type} [Mul P] (a : IkFastMoveitStateAdapter P)
    (joint_pose : JointPose) (pose : P) (h : a.isValid joint_pose = true)
    (hfk : (a.solver.getPositionFK [a.solver.getTipFrame] joint_pose).1 = false) :
    getFK a joint_pose pose =
      some { ret := false, pose := pose, fkCalls := [([a.solver.getTipFrame], joint_pose)] } := by
  simp [getFK, h, hfk]

theorem getFK_of_success {P : Type} [Mul P] (a : IkFastMoveitStateAdapter P)
    (joint_pose : JointPose) (pose : P) (h : a.isValid joint_pose = true)
    (hfk : (a.solver.getPositionFK [a.solver.getTipFrame] joint_pose).1 = true) :
    getFK a joint_pose pose =
      ((a.solver.getPositionFK [a.solver.getTipFrame] joint_pose).2.head?).map (fun out0 =>
        { ret := true
          pose := a.world_to_base_.frame * out0 * a.tool0_to_tip_.frame_inv
          fkCalls := [([a.solver.getTipFrame], joint_pose)] }) := by
  simp only [getFK, h, hfk, Bool.not_true, Bool.false_eq_true, if_false]
  cases (a.solver.getPositionFK [a.solver.getTipFrame] joint_pose).2.head? with
  | none => rfl
  | some out0 => rfl

theorem getFK_true_out {P : Type} [Mul P] (a : IkFastMoveitStateAdapter P)
    (joint_pose : JointPose) (pose : P) (r : FKResult P)
    (h : getFK a joint_pose pose = some r) (hret : r.ret = true) :
    a.isValid joint_pose = true ∧
      (a.solver.getPositionFK [a.solver.getTipFrame] joint_pose).1 = true ∧
      ∃ out0, (a.solver.getPositionFK [a.solver.getTipFrame] joint_pose).2.head? = some out0 ∧
        r.pose = a.world_to_base_.frame * out0 * a.tool0_to_tip_.frame_inv := by
  cases hv : a.isValid joint_pose with
  | false =>
    rw [getFK_of_invalid a joint_pose pose hv, Option.some.injEq] at h
    rw [← h] at hret
    exact Bool.noConfusion hret
  | true =>
    cases hfk : (a.solver.getPositionFK [a.solver.getTipFrame] joint_pose).1 with
    | false =>
      rw [getFK_of_solver_failure a joint_pose pose hv hfk, Option.some.injEq] at h
      rw [← h] at hret
      exact Bool.noConfusion hret
    | true =>
      rw [getFK_of_success a joint_pose pose hv hfk] at h
      refine ⟨rfl, rfl, ?_⟩
      cases hout : (a.solver.getPositionFK [a.solver.getTipFrame] joint_pose).2.head? with
      | none => rw [hout] at h; exact Option.noConfusion h
      | some out0 =>
        rw [hout, Option.map_some', Option.some.injEq] at h
        exact ⟨out0, rfl, by rw [← h]⟩

/-- C8: getFK returns false exactly when isValid(joint_pose) is false or the
solver's getPositionFK reports failure; for an invalid configuration getPositionFK
is not invoked and the output pose is unchanged; when getFK returns true the output
pose is world_to_base * out0 * inverse(tool0_to_tip), out0 being the first pose the
solver produced; and it does return true, with that pose, when the configuration is
valid and the solver succeeds with at least one pose. -/
theorem getFK_ret_iff {P : Type} [Mul P] (a : IkFastMoveitStateAdapter P)
    (joint_pose : JointPose) (pose : P) :
    ((∃ r, getFK a joint_pose pose = some r ∧ r.ret = false) ↔
        (a.isValid joint_pose = false ∨
          (a.solver.getPositionFK [a.solver.getTipFrame] joint_pose).1 = false)) ∧
      (a.isValid joint_pose = false →
        getFK a joint_pose pose = some { ret := false, pose := pose, fkCalls := [] }) ∧
      (∀ r, getFK a joint_pose pose = some r → r.ret = true →
        ∃ out0, (a.solver.getPositionFK [a.solver.getTipFrame] joint_pose).2.head? = some out0 ∧
          r.pose = a.world_to_base_.frame * out0 * a.tool0_to_tip_.frame_inv) ∧
      (∀ out0, a.isValid joint_pose = true →
        (a.solver.getPositionFK [a.solver.getTipFrame] joint_pose).1 = true →
        (a.solver.getPositionFK [a.solver.getTipFrame] joint_pose).2.head? = some out0 →
        getFK a joint_pose pose =
          some { ret := true
                 pose := a.world_to_base_.frame * out0 * a.tool0_to_tip_.frame_inv
                 fkCalls := [([a.solver.getTipFrame], joint_pose)] }) := by
  refine ⟨?_, getFK_of_invalid a joint_pose pose, ?_, ?_⟩
  · constructor
    · rintro ⟨r, h, hret⟩
      cases hv : a.isValid joint_pose with
      | false => exact Or.inl rfl
      | true =>
        cases hfk : (a.solver.getPositionFK [a.solver.getTipFrame] joint_pose).1 with
        | false => exact Or.inr rfl
        | true =>
          rw [getFK_of_success a joint_pose pose hv hfk] at h
          cases hout : (a.solver.getPositionFK [a.solver.getTipFrame] joint_pose).2.head? with
          | none => rw [hout] at h; exact Option.noConfusion h
          | some out0 =>
            rw [hout, Option.map_some', Option.some.injEq] at h
            rw [← h] at hret
            exact Bool.noConfusion hret
    · intro h
      cases hv : a.isValid joint_pose with
      | false => exact ⟨_, getFK_of_invalid a joint_pose pose hv, rfl⟩
      | true =>
        rcases h with h | h
        · rw [hv] at h
          exact Bool.noConfusion h
        · exact ⟨_, getFK_of_solver_failure a joint_pose pose hv h, rfl⟩
  · intro r h hret
    exact (getFK_true_out a joint_pose pose r h hret).2.2
  · intro out0 hv hfk hout
    rw [getFK_of_success a joint_pose pose hv hfk, hout]
    rfl


/-! ## Forward then inverse kinematics -/

/-- C9 (as amended): if getFK succeeds on a valid configuration q with pose r.pose,
that pose is world_to_base * X * inverse(tool0_to_tip), X being the first pose the
solver's FK produced, and the pose getAllIK hands to the solver for r.pose is
frame_inv * (frame * X * tip_inv) * tip, composed from left to right (in double
arithmetic this need not be X, even when the cached frame_inv transforms invert the
cached frames); if q is among the seeds used, its joint values are finite, and the
solver's IK for the pose handed over and seed q succeeds and returns q, then
getAllIK on r.pose returns true and its list has an entry tolerance-equal to q. -/
theorem getFK_getAllIK_round_trip {P : Type} [Mul P] (a : IkFastMoveitStateAdapter P)
    (q : JointPose) (pose : P) (r : FKResult P) (joint_poses : List JointPose)
    (hvalid : a.isValid q = true) (hfin : ∀ x ∈ q, x.isFinite = true)
    (hfk : getFK a q pose = some r) (hret : r.ret = true) :
    ∃ out0, (a.solver.getPositionFK [a.solver.getTipFrame] q).2.head? = some out0 ∧
      r.pose = a.world_to_base_.frame * out0 * a.tool0_to_tip_.frame_inv ∧
      toolPose a r.pose =
        a.world_to_base_.frame_inv *
          (a.world_to_base_.frame * out0 * a.tool0_to_tip_.frame_inv) * a.tool0_to_tip_.frame ∧
      (q ∈ seedStatesUsed a →
        (a.solver.getPositionIK [toolPose a r.pose] q).1 = true →
        q ∈ (a.solver.getPositionIK [toolPose a r.pose] q).2 →
        (getAllIK a r.pose joint_poses).ret = true ∧
          ∃ c ∈ (getAllIK a r.pose joint_poses).joint_poses, isEqual c q tol6 = true) := by
  obtain ⟨_, _, out0, hout, hpose⟩ := getFK_true_out a q pose r hfk hret
  refine ⟨out0, hout, hpose, by rw [hpose]; rfl, ?_⟩
  intro hseed hok hmem
  obtain ⟨c, hc, he⟩ := getAllIK_complete_aux a r.pose joint_poses q q hseed hok hmem hvalid hfin
  refine ⟨?_, c, hc, by rw [isEqual_comm]; exact he⟩
  rw [getAllIK_ret_true_iff_ne_nil]
  exact List.ne_nil_of_mem hc

theorem exAdapter_getFK (pose : ℚ) :
    getFK exAdapter [Double.fin 0] pose =
      some { ret := true, pose := 15, fkCalls := [(["tool0"], [Double.fin 0])] } := by
  norm_num [getFK, exAdapter, exSolver, Double.lt]

/-- The amended claim C9 at the concrete adapter over exact scalings and the
configuration 0: the world pose is 15, the solver is handed the pose 10 its forward
kinematics produced, and getAllIK succeeds with an entry tolerance-equal to 0. -/
theorem getFK_getAllIK_round_trip_witness :
    toolPose exAdapter (15 : ℚ) = 10 ∧
      (getAllIK exAdapter (15 : ℚ) []).ret = true ∧
      ∃ c ∈ (getAllIK exAdapter (15 : ℚ) []).joint_poses,
        isEqual c [Double.fin 0] tol6 = true := by
  obtain ⟨out0, hout, _, htool, h⟩ := getFK_getAllIK_round_trip exAdapter [Double.fin 0] 0
    { ret := true, pose := 15, fkCalls := [(["tool0"], [Double.fin 0])] } []
    (by simp [exAdapter, Double.lt]) (by simp [Double.isFinite]) (exAdapter_getFK 0) rfl
  have h10 : out0 = 10 := by
    have h2 : (exAdapter.solver.getPositionFK [exAdapter.solver.getTipFrame]
        [Double.fin 0]).2.head? = some (10 : ℚ) := by
      norm_num [exAdapter, exSolver]
    rw [h2, Option.some.injEq] at hout
    exact hout.symm
  subst h10
  refine ⟨by rw [htool]; norm_num [exAdapter], ?_⟩
  exact h (by simp [seedStatesUsed, exAdapter]) (by rw [exAdapter_candidates])
    (by rw [exAdapter_candidates]; simp)

/-! ### The round trip in double arithmetic -/

/-- In double arithmetic 3 * 10.1 is 30.299999999999997 (a tie, rounded to even). -/
theorem dmul_three_10_1 :
    Double.mul (Double.fin 3) dbl_10_1 = Double.fin (2132172948583219 / 2 ^ 46) := by
  have h := roundQ_of_pos (3 * (5685794529555251 / 2 ^ 49)) 4 8528691794332876
    (by norm_num) (by norm_num) (by norm_num)
    (by
      rw [roundHalfEven_of_floor _ 8528691794332876 (by norm_num) (by norm_num)]
      norm_num)
    (by norm_num)
  show roundQ (3 * (5685794529555251 / 2 ^ 49)) = _
  rw [h]
  norm_num

/-- Halving is exact. -/
theorem dmul_half :
    Double.mul (Double.fin (2132172948583219 / 2 ^ 46)) (Double.fin (1 / 2)) =
      Double.fin (2132172948583219 / 2 ^ 47) := by
  have h := dmul_fin (2132172948583219 / 2 ^ 46) (1 / 2) 2132172948583219 (-47)
    (by norm_num) (by norm_num) (by norm_num) (by norm_num)
  rw [h]
  norm_num

/-- In double arithmetic a third of 15.149999999999999 is 5.049999999999999. -/
theorem dmul_third :
    Double.mul dbl_third (Double.fin (2132172948583219 / 2 ^ 47)) =
      Double.fin (2842897264777625 / 2 ^ 49) := by
  have h := roundQ_of_pos (6004799503160661 / 2 ^ 54 * (2132172948583219 / 2 ^ 47)) 2
    5685794529555250 (by norm_num) (by norm_num) (by norm_num)
    (by
      rw [roundHalfEven_of_floor _ 5685794529555250 (by norm_num) (by norm_num)]
      norm_num)
    (by norm_num)
  show roundQ (6004799503160661 / 2 ^ 54 * (2132172948583219 / 2 ^ 47)) = _
  rw [h]
  norm_num

/-- Doubling is exact. -/
theorem dmul_two :
    Double.mul (Double.fin (2842897264777625 / 2 ^ 49)) (Double.fin 2) =
      Double.fin (2842897264777625 / 2 ^ 48) := by
  have h := dmul_fin (2842897264777625 / 2 ^ 49) 2 2842897264777625 (-48)
    (by norm_num) (by norm_num) (by norm_num) (by norm_num)
  rw [h]
  norm_num

/-- In double arithmetic the double nearest to 1/3, times 3, is 1 (a tie, rounded
to even). -/
theorem dmul_third_three : Double.mul dbl_third (Double.fin 3) = Double.fin 1 := by
  have h := roundQ_of_pos (6004799503160661 / 2 ^ 54 * 3) (-1) 9007199254740992
    (by norm_num) (by norm_num) (by norm_num)
    (by
      rw [roundHalfEven_of_floor _ 9007199254740991 (by norm_num) (by norm_num)]
      norm_num)
    (by norm_num)
  show roundQ (6004799503160661 / 2 ^ 54 * 3) = _
  rw [h]
  norm_num

theorem dmul_half_two : Double.mul (Double.fin (1 / 2)) (Double.fin 2) = Double.fin 1 := by
  have h := dmul_fin (1 / 2) 2 1 0 (by norm_num) (by norm_num) (by norm_num) (by norm_num)
  rw [h]
  norm_num

/-- C9 as stated fails: over scalings in double arithmetic, with the cached frames 3
and 2 and cached inverses that do invert them (frame_inv * frame is 1 for both),
getFK succeeds on the valid configuration 0 with the world pose 15.149999999999999
computed from the solver's FK pose 10.1, and the pose getAllIK hands to the solver
for that world pose is 10.099999999999998, not 10.1. -/
theorem round_trip_counterexample :
    exRoundAdapter.world_to_base_.frame_inv * exRoundAdapter.world_to_base_.frame
        = Double.fin 1 ∧
      exRoundAdapter.tool0_to_tip_.frame_inv * exRoundAdapter.tool0_to_tip_.frame
        = Double.fin 1 ∧
      exRoundAdapter.isValid [Double.fin 0] = true ∧
      getFK exRoundAdapter [Double.fin 0] (Double.fin 0) =
        some { ret := true, pose := Double.fin (2132172948583219 / 2 ^ 47),
               fkCalls := [(["tool0"], [Double.fin 0])] } ∧
      (exRoundAdapter.solver.getPositionFK [exRoundAdapter.solver.getTipFrame]
        [Double.fin 0]).2.head? = some dbl_10_1 ∧
      toolPose exRoundAdapter (Double.fin (2132172948583219 / 2 ^ 47)) =
        Double.fin (2842897264777625 / 2 ^ 48) ∧
      Double.fin (2842897264777625 / 2 ^ 48) ≠ dbl_10_1 := by
  have hmul : ∀ x y : Double, x * y = Double.mul x y := fun _ _ => rfl
  refine ⟨?_, ?_, ?_, ?_, rfl, ?_, ?_⟩
  · show Double.mul dbl_third (Double.fin 3) = Double.fin 1
    exact dmul_third_three
  · show Double.mul (Double.fin (1 / 2)) (Double.fin 2) = Double.fin 1
    exact dmul_half_two
  · simp [exRoundAdapter, Double.lt]
  · have hv : exRoundAdapter.isValid [Double.fin 0] = true := by
      simp [exRoundAdapter, Double.lt]
    have hfk : exRoundAdapter.solver.getPositionFK [exRoundAdapter.solver.getTipFrame]
        [Double.fin 0] = (true, [dbl_10_1]) := by
      simp [exRoundAdapter, exRoundSolver]
    rw [getFK_of_success exRoundAdapter [Double.fin 0] (Double.fin 0) hv (by rw [hfk]), hfk]
    show some ({ ret := true
                 pose := Double.mul (Double.mul (Double.fin 3) dbl_10_1) (Double.fin (1 / 2))
                 fkCalls := [(["tool0"], [Double.fin 0])] } : FKResult Double) = _
    rw [dmul_three_10_1, dmul_half]
  · show Double.mul (Double.mul dbl_third (Double.fin (2132172948583219 / 2 ^ 47)))
      (Double.fin 2) = _
    rw [dmul_third, dmul_two]
  · unfold dbl_10_1
    rw [Ne, Double.fin.injEq]
    norm_num

/-! ## The cached transforms -/

/-- C10: computeIKFastTransforms returns false exactly when the solver-native base
frame or the solver-native tool frame is unknown to the current robot state, and
when it returns false the adapter, in particular both cached transforms
tool0_to_tip_ and world_to_base_, is what it was before the call. -/
theorem computeIKFastTransforms_false_iff {P : Type} [Mul P] [Inv P]
    (a : IkFastMoveitStateAdapter P) (params : String → Option String) :
    ((computeIKFastTransforms a params).1 = false ↔
        (a.robot_state_.knowsFrameTransform (ikfastBaseFrame a params) = false ∨
          a.robot_state_.knowsFrameTransform (ikfastToolFrame a params) = false)) ∧
      ((computeIKFastTransforms a params).1 = false →
        (computeIKFastTransforms a params).2.tool0_to_tip_ = a.tool0_to_tip_ ∧
          (computeIKFastTransforms a params).2.world_to_base_ = a.world_to_base_ ∧
          (computeIKFastTransforms a params).2 = a) := by
  cases hb : a.robot_state_.knowsFrameTransform (ikfastBaseFrame a params) with
  | false => simp [computeIKFastTransforms, hb]
  | true =>
    cases ht : a.robot_state_.knowsFrameTransform (ikfastToolFrame a params) with
    | false => simp [computeIKFastTransforms, hb, ht]
    | true => simp [computeIKFastTransforms, hb, ht]


/-! ## Operations around a failed recompute -/

theorem computeIKFastTransforms_of_false {P : Type} [Mul P] [Inv P]
    (a : IkFastMoveitStateAdapter P) (params : String → Option String)
    (h : (computeIKFastTransforms a params).1 = false) :
    (computeIKFastTransforms a params).2 = a := by
  cases hb : a.robot_state_.knowsFrameTransform (ikfastBaseFrame a params) with
  | false => simp [computeIKFastTransforms, hb]
  | true =>
    cases ht : a.robot_state_.knowsFrameTransform (ikfastToolFrame a params) with
    | false => simp [computeIKFastTransforms, hb, ht]
    | true => simp [computeIKFastTransforms, hb, ht] at h

theorem getFK_false_iff {P : Type} [Mul P] (a : IkFastMoveitStateAdapter P)
    (joint_pose : JointPose) (pose : P) :
    (∃ r, getFK a joint_pose pose = some r ∧ r.ret = false) ↔
      (a.isValid joint_pose = false ∨
        (a.solver.getPositionFK [a.solver.getTipFrame] joint_pose).1 = false) := by
  constructor
  · rintro ⟨r, h, hret⟩
    cases hv : a.isValid joint_pose with
    | false => exact Or.inl rfl
    | true =>
      cases hfk : (a.solver.getPositionFK [a.solver.getTipFrame] joint_pose).1 with
      | false => exact Or.inr rfl
      | true =>
        obtain ⟨out0, hout⟩ : ∃ out0,
            (a.solver.getPositionFK [a.solver.getTipFrame] joint_pose).2.head? = some out0 := by
          cases hout : (a.solver.getPositionFK [a.solver.getTipFrame] joint_pose).2.head? with
          | none =>
            rw [getFK_of_success a joint_pose pose hv hfk, hout] at h
            exact Option.noConfusion h
          | some out0 => exact ⟨out0, rfl⟩
        rw [getFK_of_success a joint_pose pose hv hfk, hout, Option.map_some',
          Option.some.injEq] at h
        rw [← h] at hret
        exact Bool.noConfusion hret
  · intro h
    cases hv : a.isValid joint_pose with
    | false => exact ⟨_, getFK_of_invalid a joint_pose pose hv, rfl⟩
    | true =>
      rcases h with h | h
      · rw [hv] at h
        exact Bool.noConfusion h
      · exact ⟨_, getFK_of_solver_failure a joint_pose pose hv h, rfl⟩

/-- C11 (as amended): getAllIK, getIK and getFK do not check whether a frame
recompute has succeeded.  After a computeIKFastTransforms that returns false the
three operations behave exactly as on the adapter before the call, with the cached
transforms it already held: getAllIK returns true exactly when some seed yields a
valid candidate, and getFK returns false exactly when the configuration is invalid
or the solver's forward kinematics fails. -/
theorem operations_after_failed_recompute {P : Type} [Mul P] [Inv P]
    (a : IkFastMoveitStateAdapter P) (params : String → Option String) (pose : P)
    (joint_poses : List JointPose) (seed_state joint_pose : JointPose)
    (hfail : (computeIKFastTransforms a params).1 = false) :
    getAllIK (computeIKFastTransforms a params).2 pose joint_poses =
        getAllIK a pose joint_poses ∧
      getIK (computeIKFastTransforms a params).2 pose seed_state joint_pose =
        getIK a pose seed_state joint_pose ∧
      getFK (computeIKFastTransforms a params).2 joint_pose pose = getFK a joint_pose pose ∧
      ((getAllIK (computeIKFastTransforms a params).2 pose joint_poses).ret = true ↔
        ∃ seed ∈ seedStatesUsed a,
          (a.solver.getPositionIK [toolPose a pose] seed).1 = true ∧
            ∃ c ∈ (a.solver.getPositionIK [toolPose a pose] seed).2, a.isValid c = true) ∧
      ((∃ r, getFK (computeIKFastTransforms a params).2 joint_pose pose = some r ∧
          r.ret = false) ↔
        (a.isValid joint_pose = false ∨
          (a.solver.getPositionFK [a.solver.getTipFrame] joint_pose).1 = false)) := by
  rw [computeIKFastTransforms_of_false a params hfail]
  exact ⟨rfl, rfl, rfl, getAllIK_ret_true_iff a pose joint_poses,
    getFK_false_iff a joint_pose pose⟩

theorem exFreshAdapter_recompute :
    (computeIKFastTransforms exFreshAdapter (fun _ => none)).1 = false := by
  simp [computeIKFastTransforms, exFreshAdapter]

theorem exSolver_seedLoop (poses : List ℚ) :
    (seedLoop exSolver exAdapter.isValid poses [[Double.fin 0]] ([], [])).1 =
      [[Double.fin 0], [Double.fin 1]] := by
  have hcand : exSolver.getPositionIK poses [Double.fin 0] =
      (true, [[Double.fin 0], [Double.fin 1], [Double.fin 0], [Double.fin 7]]) :=
    exAdapter_candidates poses
  simp only [seedLoop, hcand, if_true]
  exact exAdapter_solLoop

theorem exFreshAdapter_getAllIK (pose : ℚ) (joint_poses : List JointPose) :
    (getAllIK exFreshAdapter pose joint_poses).joint_poses =
      [[Double.fin 0], [Double.fin 1]] :=
  exSolver_seedLoop [toolPose exFreshAdapter pose]

theorem exFreshAdapter_getFK (pose : ℚ) :
    getFK exFreshAdapter [Double.fin 0] pose =
      some { ret := true, pose := 10, fkCalls := [(["tool0"], [Double.fin 0])] } := by
  norm_num [getFK, exFreshAdapter, exAdapter, exSolver, Double.lt]

/-- The amended claim C11 at the concrete adapter whose robot state knows no
frame. -/
theorem operations_after_failed_recompute_witness :
    getAllIK (computeIKFastTransforms exFreshAdapter (fun _ => none)).2 1 [] =
        getAllIK exFreshAdapter 1 [] ∧
      getFK (computeIKFastTransforms exFreshAdapter (fun _ => none)).2 [Double.fin 0] 1 =
        getFK exFreshAdapter [Double.fin 0] 1 := by
  obtain ⟨h1, _, h3, _⟩ := operations_after_failed_recompute exFreshAdapter (fun _ => none) 1 []
    [Double.fin 0] [Double.fin 0] exFreshAdapter_recompute
  exact ⟨h1, h3⟩

/-- C11 as stated fails: on the adapter whose robot state knows no frame, the
method initialize returns false (its recompute fails, none has succeeded), and on
the adapter it leaves getAllIK returns true and getFK returns true, computed with
the identity transforms the adapter held. -/
theorem no_recompute_gating_counterexample :
    (initializeAdapter (fun a _ _ _ _ => (true, a)) exFreshAdapter (fun _ => none)
        "robot_description" "manipulator" "world" "tcp").1 = false ∧
      (getAllIK (initializeAdapter (fun a _ _ _ _ => (true, a)) exFreshAdapter (fun _ => none)
        "robot_description" "manipulator" "world" "tcp").2 1 []).ret = true ∧
      getFK (initializeAdapter (fun a _ _ _ _ => (true, a)) exFreshAdapter (fun _ => none)
        "robot_description" "manipulator" "world" "tcp").2 [Double.fin 0] 1 =
        some { ret := true, pose := 10, fkCalls := [(["tool0"], [Double.fin 0])] } := by
  have hinit : initializeAdapter (fun a _ _ _ _ => (true, a)) exFreshAdapter (fun _ => none)
      "robot_description" "manipulator" "world" "tcp" =
      computeIKFastTransforms exFreshAdapter (fun _ => none) := by
    simp [initializeAdapter]
  rw [hinit]
  refine ⟨exFreshAdapter_recompute, ?_, ?_⟩
  · rw [computeIKFastTransforms_of_false _ _ exFreshAdapter_recompute]
    have h := exFreshAdapter_getAllIK 1 []
    simp only [getAllIK] at h ⊢
    rw [h]
    rfl
  · rw [computeIKFastTransforms_of_false _ _ exFreshAdapter_recompute]
    exact exFreshAdapter_getFK 1

/-! ## Solver failures -/

/-- C12 (as amended): if getPositionFK reports failure then getFK returns false.
A getPositionIK failure for one seed is skipped and not propagated: getAllIK
returns false, with an empty list, when getPositionIK reports failure for every
seed used, and it returns true exactly when some seed has a successful call with a
valid candidate, whatever the other seeds report. -/
theorem solver_failure_propagation {P : Type} [Mul P] (a : IkFastMoveitStateAdapter P)
    (pose : P) (joint_poses : List JointPose) (joint_pose : JointPose) :
    ((a.solver.getPositionFK [a.solver.getTipFrame] joint_pose).1 = false →
        ∃ r, getFK a joint_pose pose = some r ∧ r.ret = false) ∧
      ((∀ seed ∈ seedStatesUsed a, (a.solver.getPositionIK [toolPose a pose] seed).1 = false) →
        (getAllIK a pose joint_poses).ret = false ∧
          (getAllIK a pose joint_poses).joint_poses = []) ∧
      ((getAllIK a pose joint_poses).ret = true ↔
        ∃ seed ∈ seedStatesUsed a,
          (a.solver.getPositionIK [toolPose a pose] seed).1 = true ∧
            ∃ c ∈ (a.solver.getPositionIK [toolPose a pose] seed).2, a.isValid c = true) := by
  refine ⟨fun h => (getFK_false_iff a joint_pose pose).mpr (Or.inr h), ?_,
    getAllIK_ret_true_iff a pose joint_poses⟩
  intro hall
  have hnot : ¬ (getAllIK a pose joint_poses).ret = true := by
    rw [getAllIK_ret_true_iff]
    rintro ⟨seed, hs, hok, _⟩
    rw [hall seed hs] at hok
    exact Bool.noConfusion hok
  have hret : (getAllIK a pose joint_poses).ret = false := by
    simpa using hnot
  refine ⟨hret, ?_⟩
  have h := hret
  simp only [getAllIK, decide_eq_false_iff_not, not_lt, Nat.le_zero, List.length_eq_zero] at h
  exact h

theorem exSkipAdapter_getAllIK (pose : ℚ) (joint_poses : List JointPose) :
    (getAllIK exSkipAdapter pose joint_poses).joint_poses =
      [[Double.fin 0], [Double.fin 1]] := by
  have hfail : ∀ poses : List ℚ,
      (exSolver.getPositionIK poses [Double.fin 0, Double.fin 0]).1 = false := by
    intro poses
    simp [exSolver]
  show (seedLoop exSolver exAdapter.isValid [toolPose exAdapter pose]
    [[Double.fin 0, Double.fin 0], [Double.fin 0]] ([], [])).1 = _
  have hstep : ∀ calls : List (IKCall ℚ),
      (seedLoop exSolver exAdapter.isValid [toolPose exAdapter pose] [[Double.fin 0]]
        ([], calls)).1 = [[Double.fin 0], [Double.fin 1]] := by
    intro calls
    have hcand := exAdapter_candidates [toolPose exAdapter pose]
    have hcand2 : exSolver.getPositionIK [toolPose exAdapter pose] [Double.fin 0] =
        (true, [[Double.fin 0], [Double.fin 1], [Double.fin 0], [Double.fin 7]]) := hcand
    simp only [seedLoop, hcand2, if_true]
    exact exAdapter_solLoop
  rw [seedLoop]
  simp only [hfail, Bool.false_eq_true, if_false]
  exact hstep _

/-- C12 as stated fails: with the seeds [0, 0] and [0] the solver reports failure
for the first seed, and getAllIK still returns true. -/
theorem solver_failure_swallowed_counterexample :
    [Double.fin 0, Double.fin 0] ∈ seedStatesUsed exSkipAdapter ∧
      (exSkipAdapter.solver.getPositionIK [toolPose exSkipAdapter 1]
        [Double.fin 0, Double.fin 0]).1 = false ∧
      (getAllIK exSkipAdapter 1 []).ret = true := by
  refine ⟨by simp [seedStatesUsed, exSkipAdapter], by simp [exSkipAdapter, exAdapter, exSolver],
    ?_⟩
  have h := exSkipAdapter_getAllIK 1 []
  simp only [getAllIK] at h ⊢
  rw [h]
  rfl

/-! ## The seeds handed to the solver -/

theorem seedLoop_calls {P : Type} (solver : KinematicsSolver P) (isValid : JointPose → Bool)
    (poses : List P) (seeds : List JointPose) (st : List JointPose × List (IKCall P)) :
    (seedLoop solver isValid poses seeds st).2 = st.2 ++ seeds.map (fun s => (poses, s)) := by
  induction seeds generalizing st with
  | nil => simp [seedLoop]
  | cons seed rest ih =>
    obtain ⟨joint_poses, calls⟩ := st
    unfold seedLoop
    simp only
    split
    · rw [ih]
      simp
    · rw [ih]
      simp

theorem getAllIK_calls {P : Type} [Mul P] (a : IkFastMoveitStateAdapter P) (pose : P)
    (joint_poses : List JointPose) :
    (getAllIK a pose joint_poses).calls =
      (seedStatesUsed a).map (fun s => ([toolPose a pose], s)) := by
  simp [getAllIK, seedLoop_calls]

/-- C13: with an empty configured seed list getAllIK behaves exactly as with the
seed list [z], z the all-zero configuration of length getDOF(): it returns the same
flag and list, and invokes the solver exactly once, with seed z.  With a non-empty
seed list the solver is invoked once per configured seed, in list order, and with
no other seed. -/
theorem getAllIK_seed_substitution {P : Type} [Mul P] (a : IkFastMoveitStateAdapter P)
    (pose : P) (joint_poses : List JointPose) :
    (a.seed_states_ = [] →
        getAllIK a pose joint_poses =
            getAllIK { a with seed_states_ := [List.replicate a.getDOF (Double.fin 0)] } pose joint_poses ∧
          (getAllIK a pose joint_poses).calls =
            [([toolPose a pose], List.replicate a.getDOF (Double.fin 0))]) ∧
      (a.seed_states_ ≠ [] →
        (getAllIK a pose joint_poses).calls =
          a.seed_states_.map (fun s => ([toolPose a pose], s))) := by
  constructor
  · intro hnil
    have hused : seedStatesUsed a = [List.replicate a.getDOF (Double.fin 0)] := by
      simp [seedStatesUsed, hnil]
    refine ⟨?_, by rw [getAllIK_calls, hused]; rfl⟩
    have hused2 : seedStatesUsed { a with seed_states_ := [List.replicate a.getDOF (Double.fin 0)] } =
        [List.replicate a.getDOF (Double.fin 0)] := by
      simp [seedStatesUsed]
    simp only [getAllIK, hused, hused2]
    rfl
  · intro hne
    have hused : seedStatesUsed a = a.seed_states_ := by
      cases hs : a.seed_states_ with
      | nil => exact absurd hs hne
      | cons x xs => simp [seedStatesUsed, hs]
    rw [getAllIK_calls, hused]


/-! ## Tolerance equality by index -/

theorem isEqual_iff_index (v1 v2 : JointPose) (tol : Double) :
    isEqual v1 v2 tol = true ↔
      v1.length = v2.length ∧
        ∀ i, i < v1.length →
          Double.lt (Double.abs
            (Double.sub (v1.getD i (Double.fin 0)) (v2.getD i (Double.fin 0)))) tol = true := by
  rw [isEqual_iff, List.forall₂_iff_get]
  constructor
  · rintro ⟨hlen, h⟩
    refine ⟨hlen, fun i hi => ?_⟩
    have hi2 : i < v2.length := hlen ▸ hi
    rw [List.getD_eq_getElem v1 _ hi, List.getD_eq_getElem v2 _ hi2]
    exact h i hi hi2
  · rintro ⟨hlen, h⟩
    refine ⟨hlen, fun i h1 h2 => ?_⟩
    have hi := h i h1
    rw [List.getD_eq_getElem v1 _ h1, List.getD_eq_getElem v2 _ h2] at hi
    exact hi

/-- C15: getAllIK is a function of the adapter (seed list, cached transforms,
solver, validity predicate) and the pose: two invocations started with different
previous contents of the output argument return the same flag and the same list in
the same order, namely what the seed loop builds from the empty list. -/
theorem getAllIK_deterministic {P : Type} [Mul P] (a : IkFastMoveitStateAdapter P)
    (pose : P) (joint_poses1 joint_poses2 : List JointPose) :
    (getAllIK a pose joint_poses1).ret = (getAllIK a pose joint_poses2).ret ∧
      (getAllIK a pose joint_poses1).joint_poses = (getAllIK a pose joint_poses2).joint_poses ∧
      (getAllIK a pose joint_poses1).joint_poses =
        (seedLoop a.solver a.isValid [toolPose a pose] (seedStatesUsed a) ([], [])).1 := by
  rw [getAllIK_clears a pose joint_poses1, getAllIK_clears a pose joint_poses2]
  exact ⟨rfl, rfl, rfl⟩

/-! ## A successful recompute -/

theorem computeIKFastTransforms_of_known {P : Type} [Mul P] [Inv P]
    (a : IkFastMoveitStateAdapter P) (params : String → Option String)
    (hb : a.robot_state_.knowsFrameTransform (ikfastBaseFrame a params) = true)
    (ht : a.robot_state_.knowsFrameTransform (ikfastToolFrame a params) = true) :
    computeIKFastTransforms a params =
      (true, { a with
        tool0_to_tip_ := Frame.ofTransform
          ((a.robot_state_.getFrameTransform a.tool_frame_)⁻¹ *
            a.robot_state_.getFrameTransform (ikfastToolFrame a params))
        world_to_base_ := Frame.ofTransform
          (a.world_to_root_.frame *
            a.robot_state_.getFrameTransform (ikfastBaseFrame a params)) }) := by
  simp [computeIKFastTransforms, hb, ht]

theorem computeIKFastTransforms_true_known {P : Type} [Mul P] [Inv P]
    (a : IkFastMoveitStateAdapter P) (params : String → Option String)
    (h : (computeIKFastTransforms a params).1 = true) :
    a.robot_state_.knowsFrameTransform (ikfastBaseFrame a params) = true ∧
      a.robot_state_.knowsFrameTransform (ikfastToolFrame a params) = true := by
  cases hb : a.robot_state_.knowsFrameTransform (ikfastBaseFrame a params) with
  | false => simp [computeIKFastTransforms, hb] at h
  | true =>
    cases ht : a.robot_state_.knowsFrameTransform (ikfastToolFrame a params) with
    | false => simp [computeIKFastTransforms, hb, ht] at h
    | true => exact ⟨rfl, rfl⟩

/-- C16: after a computeIKFastTransforms that returns true, tool0_to_tip_ is the
frame of inverse(transform(tool_frame_)) * transform(ikfast_tool_frame) and
world_to_base_ is the frame of world_to_root_ * transform(ikfast_base_frame), the
transforms being those of the current robot state; in particular after setState(s)
with both solver-native frames known in s, both are computed from s, which is then
the adapter's robot state. -/
theorem recompute_transforms {P : Type} [Mul P] [Inv P] (a : IkFastMoveitStateAdapter P)
    (params : String → Option String) (s : RobotState P) :
    ((computeIKFastTransforms a params).1 = true →
        (computeIKFastTransforms a params).2.tool0_to_tip_ =
            Frame.ofTransform ((a.robot_state_.getFrameTransform a.tool_frame_)⁻¹ *
              a.robot_state_.getFrameTransform (ikfastToolFrame a params)) ∧
          (computeIKFastTransforms a params).2.world_to_base_ =
            Frame.ofTransform (a.world_to_root_.frame *
              a.robot_state_.getFrameTransform (ikfastBaseFrame a params))) ∧
      (s.knowsFrameTransform (ikfastBaseFrame a params) = true →
        s.knowsFrameTransform (ikfastToolFrame a params) = true →
        (setState a params s).tool0_to_tip_ =
            Frame.ofTransform ((s.getFrameTransform a.tool_frame_)⁻¹ *
              s.getFrameTransform (ikfastToolFrame a params)) ∧
          (setState a params s).world_to_base_ =
            Frame.ofTransform (a.world_to_root_.frame *
              s.getFrameTransform (ikfastBaseFrame a params)) ∧
          (setState a params s).robot_state_ = s) := by
  constructor
  · intro h
    obtain ⟨hb, ht⟩ := computeIKFastTransforms_true_known a params h
    rw [computeIKFastTransforms_of_known a params hb ht]
    exact ⟨rfl, rfl⟩
  · intro hb ht
    unfold setState
    rw [computeIKFastTransforms_of_known (MoveitStateAdapter_setState a s) params hb ht]
    exact ⟨rfl, rfl, rfl⟩

/-- The claim C16 at the concrete adapter: setting the robot state that knows the
frames replaces the identity transforms by those computed from that state. -/
theorem recompute_transforms_witness :
    (setState exFreshAdapter (fun _ => none) exRobotState).tool0_to_tip_ =
        Frame.ofTransform ((4 : ℚ)⁻¹ * 2) ∧
      (setState exFreshAdapter (fun _ => none) exRobotState).world_to_base_ =
        Frame.ofTransform ((1 : ℚ) * 3) := by
  have h := (recompute_transforms exFreshAdapter (fun _ => none) exRobotState).2
    (by simp [ikfastBaseFrame, nh_param, default_base_frame, exRobotState])
    (by simp [ikfastToolFrame, nh_param, default_tool_frame, exRobotState])
  refine ⟨?_, ?_⟩
  · rw [h.1]
    simp [ikfastToolFrame, nh_param, default_tool_frame, exRobotState, exFreshAdapter, exAdapter]
  · rw [h.2.1]
    simp [ikfastBaseFrame, nh_param, default_base_frame, exRobotState, exFreshAdapter, exAdapter]

/-! ## Seed order -/

theorem mem_seedStatesUsed_of_perm {P : Type} (a : IkFastMoveitStateAdapter P)
    (seeds : List JointPose) (hperm : List.Perm a.seed_states_ seeds) (s : JointPose) :
    s ∈ seedStatesUsed a ↔ s ∈ seedStatesUsed { a with seed_states_ := seeds } := by
  cases ha : a.seed_states_ with
  | nil =>
    rw [ha] at hperm
    have hnil : seeds = [] := (List.Perm.nil_eq hperm).symm
    subst hnil
    simp [seedStatesUsed, ha]
  | cons x xs =>
    rw [ha] at hperm
    cases hs : seeds with
    | nil =>
      rw [hs] at hperm
      exact absurd (List.Perm.eq_nil hperm) (by simp)
    | cons y ys =>
      rw [hs] at hperm
      simp only [seedStatesUsed, ha, List.isEmpty_cons, Bool.false_eq_true, if_false]
      exact hperm.mem_iff

theorem getAllIK_covered_of_seeds {P : Type} [Mul P] (a b : IkFastMoveitStateAdapter P)
    (pose : P) (la lb : List JointPose) (hsolver : b.solver = a.solver)
    (hvalid : b.isValid = a.isValid) (hpose : toolPose b pose = toolPose a pose)
    (hseeds : ∀ s, s ∈ seedStatesUsed a → s ∈ seedStatesUsed b) :
    ∀ x ∈ (getAllIK a pose la).joint_poses, (∀ v ∈ x, v.isFinite = true) →
      ∃ y ∈ (getAllIK b pose lb).joint_poses, isEqual x y tol6 = true := by
  intro x hx hfin
  have hmem := (getAllIK_sublist a pose la).subset hx
  rw [List.mem_filter, mem_solverCandidates] at hmem
  obtain ⟨⟨seed, hs, hok, hxs⟩, hv⟩ := hmem
  exact getAllIK_complete_aux b pose lb seed x (hseeds seed hs)
    (by rw [hsolver, hpose]; exact hok) (by rw [hsolver, hpose]; exact hxs)
    (by rw [hvalid]; exact hv) hfin

/-- C17 (as amended): the order of the seeds does not affect correctness: for two
seed lists that are permutations of one another (same pose, solver, validity
predicate and cached transforms) getAllIK returns the same flag, and every
configuration returned by either run whose joint values are all finite is
tolerance-equal (isEqual with 1e-6) to a configuration returned by the other. -/
theorem getAllIK_seed_order {P : Type} [Mul P] (a : IkFastMoveitStateAdapter P) (pose : P)
    (seeds la lb : List JointPose) (hperm : List.Perm a.seed_states_ seeds) :
    (getAllIK a pose la).ret = (getAllIK { a with seed_states_ := seeds } pose lb).ret ∧
      (∀ x ∈ (getAllIK a pose la).joint_poses, (∀ v ∈ x, v.isFinite = true) →
        ∃ y ∈ (getAllIK { a with seed_states_ := seeds } pose lb).joint_poses,
          isEqual x y tol6 = true) ∧
      (∀ y ∈ (getAllIK { a with seed_states_ := seeds } pose lb).joint_poses,
        (∀ v ∈ y, v.isFinite = true) →
        ∃ x ∈ (getAllIK a pose la).joint_poses, isEqual y x tol6 = true) := by
  have hmem := mem_seedStatesUsed_of_perm a seeds hperm
  refine ⟨?_, ?_, ?_⟩
  · rw [Bool.eq_iff_iff, getAllIK_ret_true_iff, getAllIK_ret_true_iff]
    constructor
    · rintro ⟨seed, hs, hrest⟩
      exact ⟨seed, (hmem seed).mp hs, hrest⟩
    · rintro ⟨seed, hs, hrest⟩
      exact ⟨seed, (hmem seed).mpr hs, hrest⟩
  · exact getAllIK_covered_of_seeds a { a with seed_states_ := seeds } pose la lb rfl rfl rfl
      (fun s hs => (hmem s).mp hs)
  · exact getAllIK_covered_of_seeds { a with seed_states_ := seeds } a pose lb la rfl rfl rfl
      (fun s hs => (hmem s).mpr hs)


theorem dsub_6e_7_zero : dbl_6e_7.sub (Double.fin 0) = dbl_6e_7 := by
  have h := dsub_fin (2833419889721787 / 2 ^ 72) 0 2833419889721787 (-72) (by norm_num)
    (by norm_num) (by norm_num) (by norm_num)
  rw [sub_zero] at h
  exact h

theorem dsub_zero_6e_7 :
    (Double.fin 0).sub dbl_6e_7 = Double.fin (-(2833419889721787 / 2 ^ 72)) := by
  have h := dsub_fin 0 (2833419889721787 / 2 ^ 72) 2833419889721787 (-72) (by norm_num)
    (by norm_num) (by norm_num) (by norm_num [abs_of_neg])
  rw [zero_sub] at h
  exact h

theorem dsub_12e_7_zero : dbl_12e_7.sub (Double.fin 0) = dbl_12e_7 := by
  have h := dsub_fin (2833419889721787 / 2 ^ 71) 0 2833419889721787 (-71) (by norm_num)
    (by norm_num) (by norm_num) (by norm_num)
  rw [sub_zero] at h
  exact h

theorem dsub_zero_12e_7 :
    (Double.fin 0).sub dbl_12e_7 = Double.fin (-(2833419889721787 / 2 ^ 71)) := by
  have h := dsub_fin 0 (2833419889721787 / 2 ^ 71) 2833419889721787 (-71) (by norm_num)
    (by norm_num) (by norm_num) (by norm_num [abs_of_neg])
  rw [zero_sub] at h
  exact h

theorem dsub_12e_7_6e_7 : dbl_12e_7.sub dbl_6e_7 = dbl_6e_7 := by
  have h := dsub_fin (2833419889721787 / 2 ^ 71) (2833419889721787 / 2 ^ 72) 2833419889721787
    (-72) (by norm_num) (by norm_num) (by norm_num) (by norm_num)
  have hv : (2833419889721787 : ℚ) / 2 ^ 71 - 2833419889721787 / 2 ^ 72 =
      2833419889721787 / 2 ^ 72 := by norm_num
  rw [hv] at h
  exact h

theorem dsub_6e_7_12e_7 :
    dbl_6e_7.sub dbl_12e_7 = Double.fin (-(2833419889721787 / 2 ^ 72)) := by
  have h := dsub_fin (2833419889721787 / 2 ^ 72) (2833419889721787 / 2 ^ 71) 2833419889721787
    (-72) (by norm_num) (by norm_num) (by norm_num) (by norm_num [abs_of_neg])
  have hv : (2833419889721787 : ℚ) / 2 ^ 72 - 2833419889721787 / 2 ^ 71 =
      -(2833419889721787 / 2 ^ 72) := by norm_num
  rw [hv] at h
  exact h

theorem echo_equal_zero_6e_7 : isEqual [Double.fin 0] [dbl_6e_7] tol6 = true := by
  rw [isEqual_singleton, dsub_zero_6e_7]
  simp only [Double.abs, Double.lt, tol6, decide_eq_true_eq]
  norm_num [abs_of_neg]

theorem echo_equal_6e_7_12e_7 : isEqual [dbl_6e_7] [dbl_12e_7] tol6 = true := by
  rw [isEqual_singleton, dsub_6e_7_12e_7]
  simp only [Double.abs, Double.lt, tol6, decide_eq_true_eq]
  norm_num [abs_of_neg]

theorem echo_not_equal_zero_12e_7 : isEqual [Double.fin 0] [dbl_12e_7] tol6 = false := by
  rw [isEqual_singleton, dsub_zero_12e_7]
  simp only [Double.abs, Double.lt, tol6, decide_eq_false_iff_not]
  norm_num [abs_of_neg]

theorem echo_valid :
    exAdapter.isValid [Double.fin 0] = true ∧ exAdapter.isValid [dbl_6e_7] = true ∧
      exAdapter.isValid [dbl_12e_7] = true := by
  refine ⟨?_, ?_, ?_⟩
  · simp [exAdapter, Double.lt]
  · norm_num [exAdapter, dbl_6e_7, Double.lt]
  · norm_num [exAdapter, dbl_12e_7, Double.lt]

theorem exEchoAdapter_getAllIK (pose : ℚ) (joint_poses : List JointPose) :
    (getAllIK exEchoAdapter pose joint_poses).joint_poses = [[Double.fin 0], [dbl_12e_7]] := by
  have hseeds : seedStatesUsed exEchoAdapter = [[Double.fin 0], [dbl_6e_7], [dbl_12e_7]] := by
    simp [seedStatesUsed, exEchoAdapter]
  have hsolver : exEchoAdapter.solver = exEchoSolver := rfl
  have hvalid : exEchoAdapter.isValid = exAdapter.isValid := rfl
  simp only [getAllIK, clear, hseeds, hsolver, hvalid]
  have h1 : isEqual [dbl_6e_7] [Double.fin 0] tol6 = true := by
    rw [isEqual_comm]
    exact echo_equal_zero_6e_7
  have h2 : isEqual [dbl_12e_7] [Double.fin 0] tol6 = false := by
    rw [isEqual_comm]
    exact echo_not_equal_zero_12e_7
  obtain ⟨v0, v1, v2⟩ := echo_valid
  have e1 : ∀ s, exEchoSolver.getPositionIK [toolPose exEchoAdapter pose] s = (true, [s]) :=
    fun s => rfl
  simp only [seedLoop, e1, if_true, solLoop, v0, v1, v2, Bool.true_and, isInList,
    List.length_nil, gt_iff_lt, lt_self_iff_false, if_false, Bool.not_false, List.nil_append,
    List.length_cons, Nat.zero_lt_succ, isInListLoop, h1, Bool.not_true, Bool.false_eq_true,
    h2, List.cons_append, List.length_singleton, zero_add, Nat.lt_add_one, Nat.ofNat_pos]

theorem exEchoAdapter_getAllIK_swapped (pose : ℚ) (joint_poses : List JointPose) :
    (getAllIK { exEchoAdapter with seed_states_ := [[dbl_6e_7], [Double.fin 0], [dbl_12e_7]] }
      pose joint_poses).joint_poses = [[dbl_6e_7]] := by
  show (seedLoop exEchoSolver exAdapter.isValid [toolPose exAdapter pose]
    [[dbl_6e_7], [Double.fin 0], [dbl_12e_7]] ([], [])).1 = _
  have h1 : isEqual [dbl_12e_7] [dbl_6e_7] tol6 = true := by
    rw [isEqual_comm]
    exact echo_equal_6e_7_12e_7
  obtain ⟨v0, v1, v2⟩ := echo_valid
  simp [seedLoop, exEchoSolver, solLoop, isInList, isInListLoop, echo_equal_zero_6e_7, h1,
    v0, v1, v2]

theorem exEchoAdapter_perm :
    List.Perm exEchoAdapter.seed_states_ [[dbl_6e_7], [Double.fin 0], [dbl_12e_7]] :=
  List.Perm.swap _ _ _

/-- The amended claim C17 at the echo solver with the first two of its three seeds
swapped. -/
theorem getAllIK_seed_order_witness :
    (getAllIK exEchoAdapter 1 []).ret =
        (getAllIK { exEchoAdapter with
          seed_states_ := [[dbl_6e_7], [Double.fin 0], [dbl_12e_7]] } 1 []).ret ∧
      (∀ x ∈ (getAllIK exEchoAdapter 1 []).joint_poses, (∀ v ∈ x, v.isFinite = true) →
        ∃ y ∈ (getAllIK { exEchoAdapter with
            seed_states_ := [[dbl_6e_7], [Double.fin 0], [dbl_12e_7]] } 1 []).joint_poses,
          isEqual x y tol6 = true) ∧
      (∀ y ∈ (getAllIK { exEchoAdapter with
            seed_states_ := [[dbl_6e_7], [Double.fin 0], [dbl_12e_7]] } 1 []).joint_poses,
        (∀ v ∈ y, v.isFinite = true) →
        ∃ x ∈ (getAllIK exEchoAdapter 1 []).joint_poses, isEqual y x tol6 = true) :=
  getAllIK_seed_order exEchoAdapter 1 [[dbl_6e_7], [Double.fin 0], [dbl_12e_7]] [] []
    exEchoAdapter_perm

theorem exNaNAdapter_two_seeds (pose : ℚ) (joint_poses : List JointPose) :
    (getAllIK { exNaNAdapter with seed_states_ := [[Double.fin 0], [Double.fin 1]] }
      pose joint_poses).joint_poses = [[Double.nan], [Double.nan]] := by
  show (seedLoop exNaNSolver exNaNAdapter.isValid [toolPose exNaNAdapter pose]
    [[Double.fin 0], [Double.fin 1]] ([], [])).1 = _
  have h1 : isEqual [Double.nan] [Double.nan] tol6 = false :=
    isEqual_not_finite _ _ tol6 ⟨Double.nan, by simp, rfl⟩
  have v : exNaNAdapter.isValid [Double.nan] = true := by
    simp [exNaNAdapter, Double.lt]
  simp [seedLoop, exNaNSolver, solLoop, isInList, isInListLoop, h1, v]

/-- C17 as stated fails: with the seeds 0, 1 and the solver whose candidate is NaN
(which passes the joint-limit test), the run returns the configuration NaN, and no
configuration returned by the run with the seeds in the order 1, 0 is
tolerance-equal to it. -/
theorem getAllIK_seed_order_counterexample :
    List.Perm [[Double.fin 0], [Double.fin 1]] [[Double.fin 1], [Double.fin 0]] ∧
      [Double.nan] ∈ (getAllIK { exNaNAdapter with
        seed_states_ := [[Double.fin 0], [Double.fin 1]] } 1 []).joint_poses ∧
      ∀ y ∈ (getAllIK { exNaNAdapter with
          seed_states_ := [[Double.fin 1], [Double.fin 0]] } 1 []).joint_poses,
        isEqual [Double.nan] y tol6 = false := by
  refine ⟨List.Perm.swap _ _ _, ?_, ?_⟩
  · rw [exNaNAdapter_two_seeds]
    simp
  · intro y _
    exact isEqual_not_finite _ y tol6 ⟨Double.nan, by simp, rfl⟩

/-! ## The specification of isEqual and isInList -/

theorem std_equal_checked_eq (pred : Double → Double → Bool) (v1 v2 : List Double)
    (hlen : v1.length = v2.length) :
    std_equal_checked pred v1 v2 = some (std_equal pred v1 v2) := by
  induction v1 generalizing v2 with
  | nil => simp [std_equal_checked, std_equal]
  | cons a as ih =>
    cases v2 with
    | nil => simp at hlen
    | cons b bs =>
      simp only [List.length_cons, Nat.add_right_cancel_iff] at hlen
      unfold std_equal_checked std_equal
      cases hp : pred a b with
      | false => simp
      | true => simpa using ih bs hlen

theorem isEqual_of_length_ne (v1 v2 : JointPose) (tol : Double) (h : v1.length ≠ v2.length) :
    isEqual v1 v2 tol = false := by
  simp [isEqual, h]

theorem isEqualChecked_eq (v1 v2 : JointPose) (tol : Double) :
    isEqualChecked v1 v2 tol = some (isEqual v1 v2 tol) := by
  by_cases h : v1.length = v2.length
  · simp [isEqualChecked, isEqual, h, std_equal_checked_eq _ v1 v2 h]
  · simp [isEqualChecked, isEqual, h]

/-- C18 (as amended): isEqual(v1, v2, tol) is true exactly when v1 and v2 have the
same length and fabs(v1[i] - v2[i]) < tol at every index, the difference and the
comparison taken in double arithmetic; vectors of different lengths are never equal
and no element is read out of range; two empty vectors are equal; the relation is
symmetric, and for tol > 0 it is reflexive on the vectors whose entries are all
finite (neither NaN nor infinite); and isInList(v, list, tol) is true exactly when
some entry of list is isEqual to v. -/
theorem isEqual_isInList_spec (v v1 v2 : JointPose) (list : List JointPose) (tol : Double) :
    (isEqual v1 v2 tol = true ↔
        v1.length = v2.length ∧
          ∀ i, i < v1.length →
            Double.lt (Double.abs
              (Double.sub (v1.getD i (Double.fin 0)) (v2.getD i (Double.fin 0)))) tol = true) ∧
      (v1.length ≠ v2.length → isEqual v1 v2 tol = false) ∧
      isEqualChecked v1 v2 tol = some (isEqual v1 v2 tol) ∧
      isEqual [] [] tol = true ∧
      (Double.lt (Double.fin 0) tol = true → (∀ x ∈ v1, x.isFinite = true) →
        isEqual v1 v1 tol = true) ∧
      isEqual v1 v2 tol = isEqual v2 v1 tol ∧
      (isInList v list tol = true ↔ ∃ r ∈ list, isEqual v r tol = true) :=
  ⟨isEqual_iff_index v1 v2 tol, isEqual_of_length_ne v1 v2 tol, isEqualChecked_eq v1 v2 tol,
    rfl, isEqual_refl v1 tol, isEqual_comm v1 v2 tol, isInList_iff v list tol⟩

/-- C18 as stated fails: the tolerance 1e-6 is positive, and yet a vector with a
NaN entry, and likewise one with an infinite entry, is not isEqual to itself. -/
theorem isEqual_not_reflexive_counterexample :
    Double.lt (Double.fin 0) tol6 = true ∧
      isEqual [Double.nan] [Double.nan] tol6 = false ∧
      isEqual [Double.inf false] [Double.inf false] tol6 = false :=
  ⟨tol6_pos, isEqual_not_finite _ _ tol6 ⟨Double.nan, by simp, rfl⟩,
    isEqual_not_finite _ _ tol6 ⟨Double.inf false, by simp, rfl⟩⟩

/-! ## Tolerance equality is not transitive -/

/-- C20: the number of solutions getAllIK returns is not determined by the set of
candidates, because tolerance equality is not transitive: of the configurations 0,
6e-7 and 1.2e-6 (as doubles) the first two and the last two are tolerance-equal but
the first and the last are not, and for the echo solver the seed list 0, 6e-7,
1.2e-6 yields two solutions while its permutation 6e-7, 0, 1.2e-6 yields one. -/
theorem getAllIK_length_depends_on_order :
    (isEqual [Double.fin 0] [dbl_6e_7] tol6 = true ∧
        isEqual [dbl_6e_7] [dbl_12e_7] tol6 = true ∧
        isEqual [Double.fin 0] [dbl_12e_7] tol6 = false) ∧
      ∃ (a : IkFastMoveitStateAdapter ℚ) (pose : ℚ) (seeds : List JointPose),
        List.Perm a.seed_states_ seeds ∧
          (getAllIK a pose []).joint_poses.length ≠
            (getAllIK { a with seed_states_ := seeds } pose []).joint_poses.length := by
  refine ⟨⟨echo_equal_zero_6e_7, echo_equal_6e_7_12e_7, echo_not_equal_zero_12e_7⟩,
    exEchoAdapter, 1, [[dbl_6e_7], [Double.fin 0], [dbl_12e_7]], exEchoAdapter_perm, ?_⟩
  rw [exEchoAdapter_getAllIK, exEchoAdapter_getAllIK_swapped]
  decide

/-! ## Subscripts in getIK -/

theorem distanceChecked_foldl (a b : JointPose) (l : List Nat)
    (hl : ∀ i ∈ l, i < a.length ∧ i < b.length) (c : Double) :
    l.foldl
        (fun cost i =>
          match cost, b.get? i, a.get? i with
          | some c, some bi, some ai => some (Double.add c (Double.abs (Double.sub bi ai)))
          | _, _, _ => none)
        (some c) =
      some (l.foldl
        (fun cost i =>
          Double.add cost
            (Double.abs (Double.sub (b.getD i (Double.fin 0)) (a.getD i (Double.fin 0))))) c) := by
  induction l generalizing c with
  | nil => rfl
  | cons i rest ih =>
    obtain ⟨hia, hib⟩ := hl i (List.mem_cons_self _ _)
    have hrest : ∀ j ∈ rest, j < a.length ∧ j < b.length :=
      fun j hj => hl j (List.mem_cons_of_mem _ hj)
    simp only [List.foldl_cons]
    rw [List.get?_eq_get hia, List.get?_eq_get hib]
    simp only
    rw [ih hrest]
    rw [List.getD_eq_getElem a _ hia, List.getD_eq_getElem b _ hib]
    rfl

theorem distanceChecked_eq (a b : JointPose) (h : a.length ≤ b.length) :
    distanceChecked a b = some (distance a b) := by
  unfold distanceChecked distance
  apply distanceChecked_foldl
  intro i hi
  rw [List.mem_range] at hi
  exact ⟨hi, lt_of_lt_of_le hi h⟩

theorem getAllIK_lengths {P : Type} [Mul P] (a : IkFastMoveitStateAdapter P) (pose : P)
    (joint_poses : List JointPose) (n : Nat)
    (hcand : ∀ s ∈ seedStatesUsed a, (a.solver.getPositionIK [toolPose a pose] s).1 = true →
      ∀ c ∈ (a.solver.getPositionIK [toolPose a pose] s).2, c.length = n) :
    ∀ c ∈ (getAllIK a pose joint_poses).joint_poses, c.length = n := by
  intro c hc
  have hmem := (getAllIK_sublist a pose joint_poses).subset hc
  rw [List.mem_filter, mem_solverCandidates] at hmem
  obtain ⟨⟨seed, hs, hok, hcs⟩, _⟩ := hmem
  exact hcand seed hs hok c hcs

/-- C19: whenever getAllIK returns true, the list getIK passes to closestJointPose
is non-empty and the index closestJointPose returns is within its bounds; and if
the caller's seed and every candidate of a successful solver call have length
getDOF(), the length assertion of closestJointPose holds for every entry, every
read b[i] of distance is within bounds, and getIK returns true with the entry at
that index. -/
theorem getIK_subscripts_safe {P : Type} [Mul P] (a : IkFastMoveitStateAdapter P) (pose : P)
    (seed_state joint_pose : JointPose) :
    ((getAllIK a pose []).ret = true →
        (getAllIK a pose []).joint_poses ≠ [] ∧
          ∀ i, closestJointPose seed_state (getAllIK a pose []).joint_poses = some i →
            i < (getAllIK a pose []).joint_poses.length) ∧
      (seed_state.length = a.getDOF →
        (∀ s ∈ seedStatesUsed a, (a.solver.getPositionIK [toolPose a pose] s).1 = true →
          ∀ c ∈ (a.solver.getPositionIK [toolPose a pose] s).2, c.length = a.getDOF) →
        (∀ c ∈ (getAllIK a pose []).joint_poses,
          seed_state.length = c.length ∧
            distanceChecked seed_state c = some (distance seed_state c)) ∧
        ((getAllIK a pose []).ret = true →
          ∃ i jp, closestJointPose seed_state (getAllIK a pose []).joint_poses = some i ∧
            i < (getAllIK a pose []).joint_poses.length ∧
            (getAllIK a pose []).joint_poses.get? i = some jp ∧
            getIK a pose seed_state joint_pose = some (true, jp))) := by
  have hne_of_ret : (getAllIK a pose []).ret = true → (getAllIK a pose []).joint_poses ≠ [] := by
    intro hret
    have h := hret
    simp only [getAllIK, decide_eq_true_eq] at h
    exact List.length_pos.mp h
  refine ⟨fun hret => ⟨hne_of_ret hret, fun i hi =>
    closestJointPose_lt_length seed_state _ (hne_of_ret hret) i hi⟩, ?_⟩
  intro hseed hcand
  have hlen := getAllIK_lengths a pose [] a.getDOF hcand
  have hlen2 : ∀ c ∈ (getAllIK a pose []).joint_poses, c.length = seed_state.length :=
    fun c hc => by rw [hlen c hc, hseed]
  refine ⟨fun c hc => ⟨(hlen2 c hc).symm,
    distanceChecked_eq seed_state c (le_of_eq (hlen2 c hc).symm)⟩, ?_⟩
  intro hret
  obtain ⟨i, h1, h2⟩ := closestJointPose_total seed_state _ (hne_of_ret hret) hlen2
  have hjp : (getAllIK a pose []).joint_poses.get? i =
      some ((getAllIK a pose []).joint_poses.get ⟨i, h2⟩) := List.get?_eq_get h2
  exact ⟨i, _, h1, h2, hjp,
    (getIK_true_iff a pose seed_state joint_pose _).mpr ⟨hret, i, h1, hjp⟩⟩

/-- The claim C19 at the concrete adapter (one joint) and the caller's seed 3. -/
theorem getIK_subscripts_safe_witness :
    (∀ c ∈ (getAllIK exAdapter 1 []).joint_poses,
        ([Double.fin 3] : JointPose).length = c.length ∧
          distanceChecked [Double.fin 3] c = some (distance [Double.fin 3] c)) ∧
      ∃ i jp, closestJointPose [Double.fin 3] (getAllIK exAdapter 1 []).joint_poses = some i ∧
        i < (getAllIK exAdapter 1 []).joint_poses.length ∧
        (getAllIK exAdapter 1 []).joint_poses.get? i = some jp ∧
        getIK exAdapter 1 [Double.fin 3] [] = some (true, jp) := by
  have h := (getIK_subscripts_safe exAdapter 1 [Double.fin 3] []).2 (by simp [exAdapter])
    (by
      intro s hs hok c hc
      simp only [exAdapter, exSolver, beq_iff_eq, decide_eq_true_eq] at hok hc ⊢
      simp only [List.mem_cons, List.mem_singleton, List.not_mem_nil, or_false] at hc
      rcases hc with rfl | rfl | rfl | rfl
      · exact hok
      · simpa using hok
      · exact hok
      · rfl)
  exact ⟨h.1, h.2 (exAdapter_getAllIK_ret 1 [])⟩

/-! ## The arithmetic at rounding boundaries

Evaluations of the functions of the source file at inputs where rounding decides
the result. -/

/-- The double 1e-6 itself is not within the tolerance 1e-6 of zero. -/
theorem isEqual_zero_tol6 : isEqual [Double.fin 0] [tol6] tol6 = false := by
  have hsub : (Double.fin 0).sub tol6 = Double.fin (0 - 4722366482869645 / 2 ^ 72) :=
    dsub_fin 0 (4722366482869645 / 2 ^ 72) 4722366482869645 (-72) (by norm_num)
      (by norm_num) (by norm_num) (by norm_num [abs_of_neg])
  rw [isEqual_singleton, hsub]
  simp only [Double.abs, Double.lt, tol6, decide_eq_false_iff_not, not_lt]
  norm_num [abs_of_neg]

/-- In double arithmetic 2^53 + 1 is 2^53 (a tie, rounded to even). -/
theorem dadd_two_pow_53_one :
    (Double.fin 9007199254740992).add (Double.fin 1) = Double.fin 9007199254740992 := by
  have h := roundQ_of_pos (9007199254740992 + 1) 53 4503599627370496
    (by norm_num) (by norm_num) (by norm_num)
    (by
      rw [roundHalfEven_of_floor _ 4503599627370496 (by norm_num) (by norm_num)]
      norm_num)
    (by norm_num)
  show roundQ (9007199254740992 + 1) = _
  rw [h]
  norm_num

/-- The accumulated sum of distance is rounded: the distance of (0, 0) from
(2^53, 1) is 2^53. -/
theorem distance_rounds :
    distance [Double.fin 0, Double.fin 0] [Double.fin 9007199254740992, Double.fin 1] =
      Double.fin 9007199254740992 := by
  have h1 : (Double.fin 9007199254740992).sub (Double.fin 0) = Double.fin 9007199254740992 := by
    have h := dsub_fin 9007199254740992 0 1 53 (by norm_num) (by norm_num) (by norm_num)
      (by norm_num)
    rw [sub_zero] at h
    exact h
  have h2 : (Double.fin 0).add (Double.fin 9007199254740992) = Double.fin 9007199254740992 := by
    have h := dadd_fin 0 9007199254740992 1 53 (by norm_num) (by norm_num) (by norm_num)
      (by norm_num)
    rw [zero_add] at h
    exact h
  have h3 : |(9007199254740992 : ℚ)| = 9007199254740992 := by norm_num
  have h4 : |(1 : ℚ)| = 1 := by norm_num
  simp [distance, List.range_succ, h1, h2, dsub_one_zero, Double.abs, h3, h4,
    dadd_two_pow_53_one]

theorem distance_two_pow_53 :
    distance [Double.fin 0, Double.fin 0] [Double.fin 9007199254740992, Double.fin 0] =
      Double.fin 9007199254740992 := by
  have h1 : (Double.fin 9007199254740992).sub (Double.fin 0) = Double.fin 9007199254740992 := by
    have h := dsub_fin 9007199254740992 0 1 53 (by norm_num) (by norm_num) (by norm_num)
      (by norm_num)
    rw [sub_zero] at h
    exact h
  have h2 : (Double.fin 0).add (Double.fin 9007199254740992) = Double.fin 9007199254740992 := by
    have h := dadd_fin 0 9007199254740992 1 53 (by norm_num) (by norm_num) (by norm_num)
      (by norm_num)
    rw [zero_add] at h
    exact h
  have h3 : |(9007199254740992 : ℚ)| = 9007199254740992 := by norm_num
  have h5 : (Double.fin 0).sub (Double.fin 0) = Double.fin 0 := dsub_self_fin 0
  have h6 : (Double.fin 9007199254740992).add (Double.fin 0) = Double.fin 9007199254740992 := by
    have h := dadd_fin 9007199254740992 0 1 53 (by norm_num) (by norm_num) (by norm_num)
      (by norm_num)
    rw [add_zero] at h
    exact h
  simp [distance, List.range_succ, h1, h2, h5, h6, Double.abs, h3]

/-- The two candidates (2^53, 1) and (2^53, 0) are at the same computed distance
2^53 from (0, 0), and closestJointPose returns the first. -/
theorem closestJointPose_rounds :
    closestJointPose [Double.fin 0, Double.fin 0]
      [[Double.fin 9007199254740992, Double.fin 1],
        [Double.fin 9007199254740992, Double.fin 0]] = some 0 := by
  have n0 : Double.lt (Double.fin 9007199254740992) DBL_MAX = true := by
    simp only [Double.lt, DBL_MAX, decide_eq_true_eq]
    have h1 : (2 : ℚ) ^ (1024 : ℕ) = 2 ^ (53 : ℕ) * 2 ^ (971 : ℕ) := by rw [← pow_add]
    have h2 : (2 : ℚ) ^ (1 : ℕ) ≤ 2 ^ (971 : ℕ) :=
      pow_le_pow_right₀ (by norm_num) (by norm_num)
    have h3 : (2 : ℚ) ^ (53 : ℕ) = 9007199254740992 := by norm_num
    rw [h1, h3]
    rw [pow_one] at h2
    linarith
  have n1 : Double.lt (Double.fin 9007199254740992) (Double.fin 9007199254740992) = false :=
    dlt_irrefl _
  simp [closestJointPose, closestJointPoseLoop, distance_rounds, distance_two_pow_53, n0, n1]

/-- The difference inside isEqual is rounded: (2^53 + 2) - (-1) is 2^53 + 4 in
double arithmetic, which is not below the tolerance 2^53 + 4. -/
theorem isEqual_rounds :
    isEqual [Double.fin 9007199254740994] [Double.fin (-1)] (Double.fin 9007199254740996) =
      false := by
  have h := roundQ_of_pos (9007199254740994 + 1) 53 4503599627370498
    (by norm_num) (by norm_num) (by norm_num)
    (by
      rw [roundHalfEven_of_floor _ 4503599627370497 (by norm_num) (by norm_num)]
      norm_num)
    (by norm_num)
  have hsub : (Double.fin 9007199254740994).sub (Double.fin (-1)) =
      Double.fin 9007199254740996 := by
    show roundQ (9007199254740994 + - -1) = _
    rw [neg_neg, h]
    norm_num
  rw [isEqual_singleton, hsub]
  have h3 : |(9007199254740996 : ℚ)| = 9007199254740996 := by norm_num
  simp only [Double.abs, h3]
  exact dlt_irrefl _

end descartes_moveit
